import Mathlib

/-!
Verification of the transcript-monitoring core of the claude-feishu-controller
repository: a shallow embedding, in Lean 4, of the `PersistedStateStore` and
`TranscriptMonitor` classes (src/monitor/transcript-monitor.js, read here as
src/unnamed/part_000) and of the `InteractionParser`
(src/monitor/interaction-parser.js, read as src/unnamed/part_002 together with
the extended copy carrying the ExitPlanMode support), plus theorems settling
the behavioural claims about them.

Strings are modelled as `List Char` (`Str`), JavaScript `Map`s as
insertion-ordered association lists, timestamps (`Date.now()`) as `Nat`
milliseconds, and the filesystem as explicit arguments (file contents as
`Str`, directory scans as the resolved result they produce).
-/

set_option maxHeartbeats 1000000

set_option maxRecDepth 8192

abbrev Str := List Char

/-! ## JavaScript `Map` model: insertion-ordered association list.

JS `Map` semantics needed by the source: `get`, `set` (an existing key keeps
its original position; a new key is appended), `delete`, `has`, `size`,
`keys().next().value` (first key, used for oldest-entry eviction). -/

def jsGet {α : Type} (m : List (Str × α)) (k : Str) : Option α :=
  (m.find? (fun e => e.1 == k)).map (fun e => e.2)

def jsHas {α : Type} (m : List (Str × α)) (k : Str) : Bool :=
  (jsGet m k).isSome

def jsSet {α : Type} (m : List (Str × α)) (k : Str) (v : α) : List (Str × α) :=
  if (m.find? (fun e => e.1 == k)).isSome then
    m.map (fun e => if e.1 == k then (k, v) else e)
  else
    m ++ [(k, v)]

def jsDel {α : Type} (m : List (Str × α)) (k : Str) : List (Str × α) :=
  m.filter (fun e => !(e.1 == k))

/-- Delete the first-inserted entry (`map.keys().next().value` then `delete`). -/
def jsDelFirst {α : Type} (m : List (Str × α)) : List (Str × α) :=
  match m with
  | [] => []
  | _ :: rest => rest

/-! ## PersistedStateStore (src/unnamed/part_000 lines 18-248)

Two tables: `processedUuids : uuid -> timestamp` and
`filePositions : "{sessionId}:{filePath}" -> {position, lastSize, mtime, sessionId}`.
File I/O (load/flush) is not modelled; the claims are about the in-memory
table semantics, which the flush serialises verbatim. -/

structure FilePos where
  position : Nat
  lastSize : Nat
  mtime : Nat
  sessionId : Str
deriving DecidableEq, Repr

structure StoreState where
  processedUuids : List (Str × Nat)
  filePositions : List (Str × FilePos)
deriving DecidableEq, Repr

/-- `this.uuidTtl = 3600000` (1 hour). -/
def uuidTtl : Nat := 3600000

/-- `PersistedStateStore.hasUuid` (lines 165-177). Mutates the store: an
entry older than the TTL is deleted on lookup. A stored timestamp of `0` is
falsy in JS (`if (!timestamp) return false`) and is reported unseen without
deletion. JS `now - timestamp` on a clock that went backwards is negative,
hence not `> ttl`; truncated `Nat` subtraction gives the same branch. -/
def hasUuid (st : StoreState) (uuid : Str) (now : Nat) : Bool × StoreState :=
  match jsGet st.processedUuids uuid with
  | none => (false, st)
  | some ts =>
    if ts = 0 then (false, st)
    else if now - ts > uuidTtl then
      (false, { st with processedUuids := jsDel st.processedUuids uuid })
    else (true, st)

/-- `PersistedStateStore.addUuid` (lines 179-190): insert, then evict the
first-inserted entry when the table exceeds 10000 entries. -/
def addUuid (st : StoreState) (uuid : Str) (now : Nat) : StoreState :=
  let m := jsSet st.processedUuids uuid now
  let m := if m.length > 10000 then jsDelFirst m else m
  { st with processedUuids := m }

/-- `PersistedStateStore._makeFileKey`: `` `${sessionId || 'unknown'}:${filePath}` ``. -/
def makeFileKey (sessionId : Str) (filePath : Str) : Str :=
  (if sessionId = [] then "unknown".toList else sessionId) ++ [':'] ++ filePath

/-- `PersistedStateStore.getFilePosition` (lines 193-196). -/
def getFilePosition (st : StoreState) (sessionId : Str) (filePath : Str) : Option FilePos :=
  jsGet st.filePositions (makeFileKey sessionId filePath)

/-- `PersistedStateStore.setFilePosition` (lines 198-202). -/
def setFilePosition (st : StoreState) (sessionId filePath : Str)
    (position lastSize mtime : Nat) : StoreState :=
  { st with filePositions := jsSet st.filePositions (makeFileKey sessionId filePath)
              ⟨position, lastSize, mtime, sessionId⟩ }

/-- `PersistedStateStore.clearSessionFiles` (lines 216-233): delete every
file-position key that starts with `"{sessionId}:"`; a falsy (empty)
session id is a no-op. -/
def clearSessionFiles (st : StoreState) (sessionId : Str) : StoreState :=
  if sessionId = [] then st
  else
    { st with filePositions := st.filePositions.filter
                (fun e => !(sessionId ++ [':']).isPrefixOf e.1) }

/-- `PersistedStateStore.clear` (lines 235-239): both tables are wiped. -/
def storeClear (st : StoreState) : StoreState :=
  { processedUuids := [], filePositions := [] }

/-! ## IncrementalReader: `TranscriptMonitor.readNewLines` (lines 680-736)

The reader fetches bytes `[fromPosition, size)` in fixed 8192-byte chunks,
splits on `'\n'` carrying the trailing fragment of each chunk into the next,
discards blank (whitespace-only) lines, and appends a non-blank unterminated
trailing fragment as a final record.

This first model is a character-level abstraction: it chunks the decoded
character stream, i.e. it assumes the per-chunk UTF-8 decode of line 705
(`buffer.toString('utf-8', 0, bytesRead)`) commutes with the byte chunking.
That holds for single-byte content but not in general; the byte-faithful
model, including the per-chunk decode, is `readNewLinesBytes` below. -/

/-- `line.trim().length > 0`: the line has some non-whitespace character. -/
def nonBlank (l : Str) : Bool :=
  l.any (fun c => !c.isWhitespace)

/-- Split on `'\n'` into (finished lines, trailing fragment after the last
newline). `splitNlP s = (L, p)` means `s = L₀ ++ "\n" ++ ... ++ Lₖ ++ "\n" ++ p`
with `p` newline-free. -/
def splitNlP : Str → List Str × Str
  | [] => ([], [])
  | c :: rest =>
    let r := splitNlP rest
    if c = '\n' then ([] :: r.1, r.2)
    else
      match r.1 with
      | [] => ([], c :: r.2)
      | l :: ls => ((c :: l) :: ls, r.2)

/-- JS `String.prototype.split('\n')`: all fields, including the trailing
fragment (possibly empty). -/
def splitNl (s : Str) : List Str :=
  (splitNlP s).1 ++ [(splitNlP s).2]

/-- Fixed-size chunking, fuel-indexed to stay structurally recursive
(`fuel ≥ l.length` makes the fuel bound immaterial). -/
def chunksOfFuel (n : Nat) : Nat → Str → List Str
  | _, [] => []
  | 0, l => [l]
  | fuel + 1, l => l.take n :: chunksOfFuel n fuel (l.drop n)

/-- Split `l` into consecutive pieces of `n` characters (last piece shorter). -/
def chunksOf (n : Nat) (l : Str) : List Str :=
  if n = 0 then [l] else chunksOfFuel n l.length l

/-- `CHUNK_SIZE = 8192` (line 690). -/
def CHUNK_SIZE : Nat := 8192

/-- The chunk loop of `readNewLines` (lines 699-727): per chunk, prepend the
carried fragment, split on newlines, keep the complete non-blank lines, carry
the last field; after the loop, append the carried fragment if non-blank. -/
def readLoop : List Str → Str → List Str
  | [], carry => if nonBlank carry then [carry] else []
  | chunk :: rest, carry =>
    let p := splitNlP (carry ++ chunk)
    p.1.filter nonBlank ++ readLoop rest p.2

/-- `TranscriptMonitor.readNewLines` (lines 680-736), character-level
abstraction (chunk boundaries never split a character): returns `[]` when
`fromPosition >= size`, otherwise runs the fixed-8192-chunk loop over
`[fromPosition, size)`. -/
def readNewLines (file : Str) (fromPosition : Nat) : List Str :=
  if file.length ≤ fromPosition then []
  else readLoop (chunksOf CHUNK_SIZE (file.drop fromPosition)) []

/-- Modelled from the spec wording of §4.3 for comparison with the
implementation: the newline-delimited records occupying `[P, N)`, blank
lines discarded, independent of any chunking. -/
def specRecords (file : Str) (fromPosition : Nat) : List Str :=
  (splitNl (file.drop fromPosition)).filter nonBlank

/-- The per-cycle offset update of `TranscriptMonitor.processFile`
(lines 1286-1342): when `readNewLines` yields nothing the position is left
alone (early return, line 1288-1290); otherwise it is advanced to the
current file size (lines 1337-1338). -/
def processFilePosition (position : Nat) (file : Str) : Nat :=
  if readNewLines file position = [] then position else file.length

/-! ### Bridge lemmas for the reader -/

theorem splitNlP_nil : splitNlP [] = ([], []) := rfl

theorem splitNlP_cons (c : Char) (rest : Str) :
    splitNlP (c :: rest) =
      (if c = '\n' then ([] :: (splitNlP rest).1, (splitNlP rest).2)
       else match (splitNlP rest).1 with
            | [] => ([], c :: (splitNlP rest).2)
            | l :: ls => ((c :: l) :: ls, (splitNlP rest).2)) := by
  by_cases h : c = '\n' <;> simp [splitNlP, h]

/-- The trailing fragment never contains a newline. -/
theorem splitNlP_snd_no_nl (s : Str) : '\n' ∉ (splitNlP s).2 := by
  induction s with
  | nil => simp [splitNlP]
  | cons c rest ih =>
    rw [splitNlP_cons]
    by_cases h : c = '\n'
    · simpa [h] using ih
    · rcases hr : (splitNlP rest).1 with _ | ⟨l, ls⟩
      · simp only [h, if_neg, hr]
        intro hmem
        rcases List.mem_cons.mp hmem with h1 | h2
        · exact h h1.symm
        · exact ih h2
      · simpa [h, hr] using ih

/-- A newline-free string splits into no finished line and itself as fragment. -/
theorem splitNlP_no_nl (s : Str) (h : '\n' ∉ s) : splitNlP s = ([], s) := by
  induction s with
  | nil => rfl
  | cons c rest ih =>
    rw [splitNlP_cons]
    have hc : c ≠ '\n' := fun hc => h (hc ▸ List.mem_cons_self c rest)
    have hrest : '\n' ∉ rest := fun hm => h (List.mem_cons_of_mem c hm)
    simp [hc, ih hrest]

/-- How two split results combine when the underlying strings are
concatenated: the left fragment merges into the right side's first field. -/
def snlCombine (x y : List Str × Str) : List Str × Str :=
  match y.1 with
  | [] => (x.1, x.2 ++ y.2)
  | l :: ls => (x.1 ++ (x.2 ++ l) :: ls, y.2)

/-- How splitting acts on concatenation. -/
theorem splitNlP_append (a b : Str) :
    splitNlP (a ++ b) = snlCombine (splitNlP a) (splitNlP b) := by
  induction a with
  | nil =>
    rcases hb : splitNlP b with ⟨L2, p2⟩
    rcases L2 with _ | ⟨l, ls⟩ <;> simp [snlCombine, splitNlP, hb]
  | cons c rest ih =>
    show splitNlP (c :: (rest ++ b)) = _
    rw [splitNlP_cons, ih]
    rcases hr : splitNlP rest with ⟨L1, p1⟩
    rcases hb : splitNlP b with ⟨L2, p2⟩
    rw [splitNlP_cons, hr]
    rcases L2 with _ | ⟨l2, ls2⟩
    · by_cases hc : c = '\n'
      · simp [hc, snlCombine]
      · rcases L1 with _ | ⟨l1, ls1⟩ <;> simp [hc, snlCombine]
    · by_cases hc : c = '\n'
      · simp [hc, snlCombine]
      · rcases L1 with _ | ⟨l1, ls1⟩ <;> simp [hc, snlCombine]

theorem chunksOfFuel_flatten (n : Nat) (hn : 0 < n) :
    ∀ (fuel : Nat) (l : Str), l.length ≤ fuel → (chunksOfFuel n fuel l).flatten = l := by
  intro fuel
  induction fuel with
  | zero =>
    intro l hl
    have : l = [] := List.length_eq_zero.mp (Nat.le_zero.mp hl)
    subst this; rfl
  | succ fuel ih =>
    intro l hl
    match l with
    | [] => rfl
    | c :: rest =>
      show (List.take n (c :: rest) :: chunksOfFuel n fuel (List.drop n (c :: rest))).flatten
            = c :: rest
      rw [List.flatten_cons, ih]
      · exact List.take_append_drop n (c :: rest)
      · have hdrop : (List.drop n (c :: rest)).length = (c :: rest).length - n :=
          List.length_drop n (c :: rest)
        have : (c :: rest).length - n ≤ fuel := by
          have h1 : (c :: rest).length ≤ fuel + 1 := hl
          omega
        omega

theorem chunksOf_flatten (n : Nat) (l : Str) (hn : 0 < n) :
    (chunksOf n l).flatten = l := by
  unfold chunksOf
  rw [if_neg (Nat.pos_iff_ne_zero.mp hn)]
  exact chunksOfFuel_flatten n hn l.length l (le_refl _)

/-- The chunk loop on any chunking of the content, starting from a
newline-free carried fragment, yields exactly the non-blank fields of the
unchunked split. -/
theorem readLoop_eq (chunks : List Str) (carry : Str) (hc : '\n' ∉ carry) :
    readLoop chunks carry =
      (splitNl (carry ++ chunks.flatten)).filter nonBlank := by
  induction chunks generalizing carry with
  | nil =>
    rw [readLoop]
    simp only [List.flatten_nil, List.append_nil, splitNl, splitNlP_no_nl carry hc]
    by_cases hb : nonBlank carry <;> simp [hb]
  | cons chunk rest ih =>
    rw [readLoop]
    have hfrag : '\n' ∉ (splitNlP (carry ++ chunk)).2 := splitNlP_snd_no_nl _
    rw [ih _ hfrag]
    have hassoc : carry ++ (chunk :: rest).flatten = (carry ++ chunk) ++ rest.flatten := by
      simp [List.flatten_cons]
    rw [hassoc]
    unfold splitNl
    rw [splitNlP_append (carry ++ chunk) rest.flatten,
        splitNlP_append ((splitNlP (carry ++ chunk)).2) rest.flatten,
        splitNlP_no_nl _ hfrag]
    rcases hB : splitNlP rest.flatten with ⟨L2, p2⟩
    rcases L2 with _ | ⟨l2, ls2⟩ <;> simp [snlCombine, List.filter_append]

/-- Implementation/specification bridge for the incremental reader. -/
theorem readNewLines_eq_spec (file : Str) (fromPosition : Nat) :
    readNewLines file fromPosition =
      if fromPosition < file.length then specRecords file fromPosition else [] := by
  unfold readNewLines specRecords
  by_cases h : file.length ≤ fromPosition
  · simp [h, Nat.not_lt.mpr h]
  · have hlt : fromPosition < file.length := Nat.not_le.mp h
    rw [if_neg h, if_pos hlt, readLoop_eq _ [] (by simp),
        chunksOf_flatten CHUNK_SIZE _ (by norm_num [CHUNK_SIZE])]
    simp

/-! ## Byte-level reader: the per-chunk UTF-8 decode (lines 699-727)

The source reads 8192 BYTES at a time and decodes each chunk separately
(`buffer.toString('utf-8', 0, bytesRead)`, line 705). A multi-byte UTF-8
character whose bytes straddle a chunk boundary is destroyed by those two
independent decodes: the truncated tail of the first chunk and the orphan
continuation bytes opening the next chunk each become U+FFFD. The model
below keeps the byte chunking and the per-chunk decode. Bytes are `Nat`
values below 256. -/

/-- State of the WHATWG UTF-8 decoder (the semantics of Node's
`Buffer.prototype.toString('utf-8')`): the partial code point, how many
continuation bytes were consumed, how many the sequence needs in total, and
the admissible range of the next byte. -/
structure Utf8State where
  codepoint : Nat
  bytesSeen : Nat
  bytesNeeded : Nat
  lower : Nat
  upper : Nat
deriving DecidableEq

def utf8InitState : Utf8State := ⟨0, 0, 0, 0x80, 0xBF⟩

/-- U+FFFD REPLACEMENT CHARACTER, emitted for an invalid or truncated
sequence. -/
def replacementChar : Char := Char.ofNat 0xFFFD

/-- A byte in start position: ASCII emits itself, a lead byte opens a two-,
three- or four-byte sequence (with the constrained second-byte ranges that
exclude overlong forms, surrogates and code points above U+10FFFF), any
other byte is invalid and emits U+FFFD. -/
def utf8Start (b : Nat) : List Char × Utf8State :=
  if b ≤ 0x7F then ([Char.ofNat b], utf8InitState)
  else if 0xC2 ≤ b ∧ b ≤ 0xDF then ([], ⟨b % 0x20, 0, 1, 0x80, 0xBF⟩)
  else if 0xE0 ≤ b ∧ b ≤ 0xEF then
    ([], ⟨b % 0x10, 0, 2, (if b = 0xE0 then 0xA0 else 0x80), (if b = 0xED then 0x9F else 0xBF)⟩)
  else if 0xF0 ≤ b ∧ b ≤ 0xF4 then
    ([], ⟨b % 0x8, 0, 3, (if b = 0xF0 then 0x90 else 0x80), (if b = 0xF4 then 0x8F else 0xBF)⟩)
  else ([Char.ofNat 0xFFFD], utf8InitState)

/-- One byte through the decoder: with no sequence pending, treat it as a
start byte; a continuation byte in range extends the pending code point and
completes it when enough bytes were seen; a byte out of range aborts the
pending sequence with U+FFFD and is reconsidered as a start byte. -/
def utf8Step (st : Utf8State) (b : Nat) : List Char × Utf8State :=
  if st.bytesNeeded = 0 then utf8Start b
  else if st.lower ≤ b ∧ b ≤ st.upper then
    if st.bytesSeen + 1 = st.bytesNeeded then
      ([Char.ofNat (st.codepoint * 64 + b % 64)], utf8InitState)
    else ([], ⟨st.codepoint * 64 + b % 64, st.bytesSeen + 1, st.bytesNeeded, 0x80, 0xBF⟩)
  else (Char.ofNat 0xFFFD :: (utf8Start b).1, (utf8Start b).2)

/-- Run the decoder over a byte list; a sequence still pending at end of
input yields a final U+FFFD — this is the truncated tail of a chunk. -/
def utf8DecodeLoop : List Nat → Utf8State → List Char
  | [], st => if st.bytesNeeded = 0 then [] else [Char.ofNat 0xFFFD]
  | b :: rest, st => (utf8Step st b).1 ++ utf8DecodeLoop rest (utf8Step st b).2

/-- `buffer.toString('utf-8', 0, bytesRead)` (line 705): decode one chunk of
bytes in isolation. -/
def utf8Decode (bs : List Nat) : List Char :=
  utf8DecodeLoop bs utf8InitState

/-- Fixed-size chunking of the byte stream, fuel-indexed like
`chunksOfFuel`. -/
def byteChunksOfFuel (n : Nat) : Nat → List Nat → List (List Nat)
  | _, [] => []
  | 0, l => [l]
  | fuel + 1, l => l.take n :: byteChunksOfFuel n fuel (l.drop n)

/-- Split the bytes into consecutive 8192-byte reads (`fs.readSync` with
`readSize = Math.min(CHUNK_SIZE, remaining)`, lines 700-701). -/
def byteChunksOf (n : Nat) (l : List Nat) : List (List Nat) :=
  if n = 0 then [l] else byteChunksOfFuel n l.length l

/-- The chunk loop of `readNewLines` (lines 699-727) on byte chunks: each
chunk is decoded on its own (line 705) before the carried fragment is
prepended and the newline split performed. -/
def byteReadLoop : List (List Nat) → Str → List Str
  | [], carry => if nonBlank carry then [carry] else []
  | chunk :: rest, carry =>
    let p := splitNlP (carry ++ utf8Decode chunk)
    p.1.filter nonBlank ++ byteReadLoop rest p.2

/-- `TranscriptMonitor.readNewLines` (lines 680-736) at byte level: `[]`
when `fromPosition >= size`, otherwise the fixed-8192-BYTE chunk loop over
bytes `[fromPosition, size)` with per-chunk UTF-8 decoding. -/
def readNewLinesBytes (file : List Nat) (fromPosition : Nat) : List Str :=
  if file.length ≤ fromPosition then []
  else byteReadLoop (byteChunksOf CHUNK_SIZE (file.drop fromPosition)) []

/-- Modelled from the spec wording of §4.3 for comparison: the records of
the byte range `[P, N)` decoded as one stream — each record whole and
unaltered — with blank lines discarded, independent of any chunking. -/
def specRecordsBytes (file : List Nat) (fromPosition : Nat) : List Str :=
  (splitNl (utf8Decode (file.drop fromPosition))).filter nonBlank

/-- A transcript whose single record ends in the two-byte character U+00E9
(bytes `0xC3 0xA9`), placed so the 8192-byte chunk boundary falls between
its two bytes: 8191 `'a'` bytes, the two bytes of U+00E9, a newline. -/
def cexUtf8Bytes : List Nat :=
  List.replicate 8191 0x61 ++ [0xC3, 0xA9, 0x0A]

/-! ### Bridge lemmas for the byte-level reader -/

theorem utf8Step_init_ascii (b : Nat) (hb : b < 0x80) :
    utf8Step utf8InitState b = ([Char.ofNat b], utf8InitState) := by
  show utf8Start b = _
  unfold utf8Start
  rw [if_pos (by omega : b ≤ 0x7F)]

theorem utf8DecodeLoop_ascii_append (bs tail2 : List Nat) (h : ∀ b ∈ bs, b < 0x80) :
    utf8DecodeLoop (bs ++ tail2) utf8InitState =
      bs.map Char.ofNat ++ utf8DecodeLoop tail2 utf8InitState := by
  induction bs with
  | nil => rfl
  | cons b rest ih =>
    have hstep := utf8Step_init_ascii b (h b (List.mem_cons_self b rest))
    show (utf8Step utf8InitState b).1 ++
        utf8DecodeLoop (rest ++ tail2) (utf8Step utf8InitState b).2 = _
    rw [hstep]
    show Char.ofNat b :: utf8DecodeLoop (rest ++ tail2) utf8InitState = _
    rw [ih (fun x hx => h x (List.mem_cons_of_mem b hx))]
    rfl

/-- All-ASCII byte lists decode losslessly. -/
theorem utf8Decode_ascii (bs : List Nat) (h : ∀ b ∈ bs, b < 0x80) :
    utf8Decode bs = bs.map Char.ofNat := by
  have h2 := utf8DecodeLoop_ascii_append bs [] h
  rw [List.append_nil] at h2
  unfold utf8Decode
  rw [h2]
  show bs.map Char.ofNat ++ [] = _
  exact List.append_nil _

theorem byteChunksOfFuel_nil (n fuel : Nat) : byteChunksOfFuel n fuel [] = [] := by
  match fuel with
  | 0 => rfl
  | f + 1 => rfl

theorem byteChunksOfFuel_step (n fuel : Nat) (l : List Nat) (h : l ≠ []) :
    byteChunksOfFuel n (fuel + 1) l =
      l.take n :: byteChunksOfFuel n fuel (l.drop n) := by
  match l with
  | [] => exact absurd rfl h
  | b :: l1 => rfl

theorem byteChunksOfFuel_flatten (n : Nat) (hn : 0 < n) :
    ∀ (fuel : Nat) (l : List Nat), l.length ≤ fuel →
      (byteChunksOfFuel n fuel l).flatten = l := by
  intro fuel
  induction fuel with
  | zero =>
    intro l hl
    have : l = [] := List.length_eq_zero.mp (Nat.le_zero.mp hl)
    subst this; rfl
  | succ fuel ih =>
    intro l hl
    match l with
    | [] => rfl
    | c :: rest =>
      show (List.take n (c :: rest) :: byteChunksOfFuel n fuel (List.drop n (c :: rest))).flatten
            = c :: rest
      rw [List.flatten_cons, ih]
      · exact List.take_append_drop n (c :: rest)
      · have hdrop : (List.drop n (c :: rest)).length = (c :: rest).length - n :=
          List.length_drop n (c :: rest)
        have : (c :: rest).length - n ≤ fuel := by
          have h1 : (c :: rest).length ≤ fuel + 1 := hl
          omega
        omega

theorem byteChunksOf_flatten (n : Nat) (l : List Nat) (hn : 0 < n) :
    (byteChunksOf n l).flatten = l := by
  unfold byteChunksOf
  rw [if_neg (Nat.pos_iff_ne_zero.mp hn)]
  exact byteChunksOfFuel_flatten n hn l.length l (le_refl _)

/-- On all-ASCII chunks the per-chunk decode is harmless: the byte loop is
the character loop on the decoded chunks. -/
theorem byteReadLoop_ascii (chunks : List (List Nat)) (carry : Str)
    (h : ∀ c ∈ chunks, ∀ b ∈ c, b < 0x80) :
    byteReadLoop chunks carry =
      readLoop (chunks.map (List.map Char.ofNat)) carry := by
  induction chunks generalizing carry with
  | nil => rfl
  | cons chunk rest ih =>
    rw [byteReadLoop]
    rw [utf8Decode_ascii chunk (h chunk (List.mem_cons_self chunk rest))]
    rw [ih _ (fun c hc => h c (List.mem_cons_of_mem chunk hc))]
    rw [List.map_cons, readLoop]

theorem nonBlank_of_mem_a {l : Str} (h : 'a' ∈ l) : nonBlank l = true := by
  unfold nonBlank
  rw [List.any_eq_true]
  exact ⟨'a', h, by decide⟩

theorem cexUtf8Bytes_len : cexUtf8Bytes.length = 8194 := by
  unfold cexUtf8Bytes
  rw [List.length_append, List.length_replicate]
  rfl

theorem replicate61_ascii : ∀ b ∈ List.replicate 8191 (0x61 : Nat), b < 0x80 := by
  intro b hb
  have := List.eq_of_mem_replicate hb
  omega

theorem cexUtf8Bytes_take :
    cexUtf8Bytes.take CHUNK_SIZE = List.replicate 8191 0x61 ++ [0xC3] := by
  show cexUtf8Bytes.take 8192 = _
  unfold cexUtf8Bytes
  rw [List.take_append_eq_append_take, List.length_replicate,
      List.take_of_length_le
        (by rw [List.length_replicate]; omega :
          (List.replicate 8191 (0x61 : Nat)).length ≤ 8192)]
  rfl

theorem cexUtf8Bytes_drop : cexUtf8Bytes.drop CHUNK_SIZE = [0xA9, 0x0A] := by
  show cexUtf8Bytes.drop 8192 = _
  unfold cexUtf8Bytes
  rw [List.drop_append_eq_append_drop, List.length_replicate,
      List.drop_eq_nil_of_le
        (by rw [List.length_replicate]; omega :
          (List.replicate 8191 (0x61 : Nat)).length ≤ 8192)]
  rfl

/-- The two reads performed on the counterexample transcript: the first
takes the 8192-byte chunk ending in the lead byte `0xC3`, the second gets
the orphan continuation byte `0xA9` and the newline. -/
theorem cexUtf8Bytes_chunks :
    byteChunksOf CHUNK_SIZE cexUtf8Bytes =
      [List.replicate 8191 0x61 ++ [0xC3], [0xA9, 0x0A]] := by
  have hne2 : cexUtf8Bytes ≠ [] := by
    intro h
    have h2 := congrArg List.length h
    rw [cexUtf8Bytes_len] at h2
    exact absurd h2 (by decide)
  unfold byteChunksOf
  rw [if_neg (by decide : ¬ (CHUNK_SIZE = 0)), cexUtf8Bytes_len]
  rw [show (8194 : Nat) = 8193 + 1 from rfl,
      byteChunksOfFuel_step CHUNK_SIZE 8193 cexUtf8Bytes hne2,
      cexUtf8Bytes_take, cexUtf8Bytes_drop]
  rw [show (8193 : Nat) = 8192 + 1 from rfl,
      byteChunksOfFuel_step CHUNK_SIZE 8192 [0xA9, 0x0A] (by decide),
      show List.take CHUNK_SIZE [0xA9, 0x0A] = [0xA9, 0x0A] from rfl,
      show List.drop CHUNK_SIZE [0xA9, 0x0A] = ([] : List Nat) from rfl,
      byteChunksOfFuel_nil]

/-- Decoding the first chunk in isolation: the truncated lead byte at the
chunk end becomes U+FFFD. -/
theorem cexUtf8Bytes_decode1 :
    utf8Decode (List.replicate 8191 0x61 ++ [0xC3]) =
      List.replicate 8191 'a' ++ [replacementChar] := by
  unfold utf8Decode
  rw [utf8DecodeLoop_ascii_append _ _ replicate61_ascii, List.map_replicate,
      show Char.ofNat 0x61 = 'a' from by decide,
      show utf8DecodeLoop [0xC3] utf8InitState = [replacementChar] from by decide]

/-- Decoding the second chunk in isolation: the orphan continuation byte
becomes U+FFFD. -/
theorem cexUtf8Bytes_decode2 :
    utf8Decode [0xA9, 0x0A] = [replacementChar, '\n'] := by decide

/-- Decoding the whole range as one stream yields the intact U+00E9. -/
theorem cexUtf8Bytes_decode_whole :
    utf8Decode cexUtf8Bytes = List.replicate 8191 'a' ++ [Char.ofNat 0xE9, '\n'] := by
  unfold cexUtf8Bytes utf8Decode
  rw [utf8DecodeLoop_ascii_append _ _ replicate61_ascii, List.map_replicate,
      show Char.ofNat 0x61 = 'a' from by decide,
      show utf8DecodeLoop [0xC3, 0xA9, 0x0A] utf8InitState = [Char.ofNat 0xE9, '\n'] from by decide]

theorem byteReadLoop_cons (chunk : List Nat) (rest : List (List Nat)) (carry : Str) :
    byteReadLoop (chunk :: rest) carry =
      List.filter nonBlank (splitNlP (carry ++ utf8Decode chunk)).1 ++
        byteReadLoop rest (splitNlP (carry ++ utf8Decode chunk)).2 := rfl

/-- The reader on the counterexample transcript: the straddling character
comes back as two replacement characters. -/
theorem cexUtf8Bytes_read :
    readNewLinesBytes cexUtf8Bytes 0 =
      [List.replicate 8191 'a' ++ [replacementChar, replacementChar]] := by
  unfold readNewLinesBytes
  rw [if_neg (by rw [cexUtf8Bytes_len]; omega), List.drop_zero, cexUtf8Bytes_chunks]
  rw [byteReadLoop_cons, cexUtf8Bytes_decode1, List.nil_append]
  have hno : '\n' ∉ List.replicate 8191 'a' ++ [replacementChar] := by
    intro hmem
    rcases List.mem_append.mp hmem with h | h
    · exact absurd (List.eq_of_mem_replicate h) (by decide)
    · exact absurd (by simpa using h : '\n' = replacementChar) (by decide)
  rw [splitNlP_no_nl _ hno]
  dsimp only
  rw [List.filter_nil, List.nil_append]
  rw [byteReadLoop_cons, cexUtf8Bytes_decode2, splitNlP_append, splitNlP_no_nl _ hno,
      show splitNlP [replacementChar, '\n'] = ([[replacementChar]], []) from by decide]
  dsimp only [snlCombine]
  rw [List.nil_append]
  rw [List.filter_cons_of_pos
        (nonBlank_of_mem_a (List.mem_append.mpr (Or.inl
          (List.mem_append.mpr (Or.inl (List.mem_replicate.mpr ⟨by decide, rfl⟩)))))),
      List.filter_nil]
  rw [show byteReadLoop [] [] = [] from rfl, List.append_nil, List.append_assoc]
  rfl

/-- The chunking-free specification on the counterexample transcript: the
record carries the intact U+00E9. -/
theorem cexUtf8Bytes_spec :
    specRecordsBytes cexUtf8Bytes 0 = [List.replicate 8191 'a' ++ [Char.ofNat 0xE9]] := by
  unfold specRecordsBytes
  rw [List.drop_zero, cexUtf8Bytes_decode_whole]
  unfold splitNl
  have hnoA : '\n' ∉ List.replicate 8191 'a' := by
    intro h
    exact absurd (List.eq_of_mem_replicate h) (by decide)
  rw [splitNlP_append, splitNlP_no_nl _ hnoA,
      show splitNlP [Char.ofNat 0xE9, '\n'] = ([[Char.ofNat 0xE9]], []) from by decide]
  dsimp only [snlCombine]
  rw [List.nil_append, List.cons_append, List.nil_append]
  rw [List.filter_cons_of_pos
        (nonBlank_of_mem_a (List.mem_append.mpr (Or.inl
          (List.mem_replicate.mpr ⟨by decide, rfl⟩)))),
      List.filter_cons_of_neg (by decide), List.filter_nil]

/-! ## Log record data model (§6: one JSON line of the transcript)

`{ type, uuid, message: { role, content: [ { type, text?, name?, input? } ] } }`.
`Option` models a missing JS field; a missing and a non-array `content`
behave identically at every use site and are both modelled as `none`.
Question options carry the union of the fields either parser writes. -/

structure OptionData where
  num : Option Nat
  label : Str
  description : Option Str
  value : Option Str
deriving DecidableEq, Repr

structure QEntry where
  question : Option Str
  header : Option Str
  options : Option (List OptionData)
  multiSelect : Option Bool
deriving DecidableEq, Repr

structure ToolInput where
  questions : Option (List QEntry)
deriving DecidableEq, Repr

structure ContentItem where
  type : Str
  text : Option Str
  name : Option Str
  input : Option ToolInput
deriving DecidableEq, Repr

structure Message where
  role : Str
  content : Option (List ContentItem)
deriving DecidableEq, Repr

structure LogRecord where
  type : Str
  uuid : Option Str
  message : Option Message
deriving DecidableEq, Repr

/-- JS truthiness of an optional string: present and non-empty. -/
def truthy (o : Option Str) : Bool :=
  match o with
  | none => false
  | some s => decide (s ≠ [])

/-- JS `hay.includes(needle)`. -/
def strIncludes (hay needle : Str) : Bool :=
  hay.tails.any (fun t => needle.isPrefixOf t)

/-- JS `String.prototype.trim`. -/
def strTrim (s : Str) : Str :=
  ((s.dropWhile (fun c => c.isWhitespace)).reverse.dropWhile (fun c => c.isWhitespace)).reverse

/-! ## InteractionParser (src/unnamed/part_002, and the extended copy with
ExitPlanMode support used by `TranscriptMonitor` v1.4.0) -/

inductive InteractionType where
  | askUserQuestion
  | exitPlanMode
deriving DecidableEq, Repr

structure QuestionData where
  text : Str
  header : Str
  options : List OptionData
  multiSelect : Bool
deriving DecidableEq, Repr

structure Interaction where
  type : InteractionType
  uuid : Option Str
  question : QuestionData
  planFilePath : Option Str
deriving DecidableEq, Repr

def contentOf (data : LogRecord) : Option (List ContentItem) :=
  data.message.bind Message.content

/-- `InteractionParser.isAskUserQuestion`. -/
def isAskUserQuestion (data : LogRecord) : Bool :=
  match contentOf data with
  | none => false
  | some content =>
    content.any (fun c => c.type == "tool_use".toList && c.name == some "AskUserQuestion".toList)

/-- `InteractionParser.hasToolUse`. -/
def hasToolUse (data : LogRecord) : Bool :=
  match contentOf data with
  | none => false
  | some content => content.any (fun c => c.type == "tool_use".toList)

/-- `InteractionParser.hasThinking`: a text block starting with the thinking
delimiter or containing one of the literal internal-mode markers. -/
def hasThinking (data : LogRecord) : Bool :=
  match contentOf data with
  | none => false
  | some content =>
    content.any (fun c =>
      c.type == "text".toList && truthy c.text &&
        (("<thinking>".toList).isPrefixOf (c.text.getD []) ||
         strIncludes (c.text.getD []) "[SUGGESTION MODE:]".toList ||
         strIncludes (c.text.getD []) "[SKILL MODE:]".toList ||
         strIncludes (c.text.getD []) "[INTERNAL]".toList))

/-- `InteractionParser.isPureText`: some text block with non-blank trimmed
content, and neither tool_use nor thinking content. -/
def isPureText (data : LogRecord) : Bool :=
  match contentOf data with
  | none => false
  | some content =>
    content.any (fun c => c.type == "text".toList && truthy c.text && nonBlank (c.text.getD []))
      && !hasToolUse data && !hasThinking data

/-- The `content.find(...)` inside `parseAskUserQuestion`. -/
def findAskToolUse (data : LogRecord) : Option ContentItem :=
  ((contentOf data).getD []).find?
    (fun c => c.type == "tool_use".toList && c.name == some "AskUserQuestion".toList)

/-- `InteractionParser.parseAskUserQuestion` (part_002 lines 138-173). The
guard `if (!toolUse || !toolUse.input || !toolUse.input.questions)` and the
`!Array.isArray(questions) || questions.length === 0` check both log a
warning and return `null`; they are written here as one flattened match on
the option chain, whose second component records whether that warning was
logged. A question entry whose own `options` list is missing parses
successfully with an empty options list (`question.options || []`). -/
def parseAskUserQuestion (data : LogRecord) : Option Interaction × Bool :=
  if !isAskUserQuestion data then (none, false)
  else
    match ((findAskToolUse data).bind ContentItem.input).bind ToolInput.questions with
    | none => (none, true)
    | some [] => (none, true)
    | some (q :: _) =>
      (some { type := InteractionType.askUserQuestion,
              uuid := data.uuid,
              question := { text := q.question.getD [],
                            header := q.header.getD [],
                            options := q.options.getD [],
                            multiSelect := q.multiSelect.getD false },
              planFilePath := none }, false)

/-- `InteractionParser.parse(data)` as invoked by `shouldSendMessage` (no
terminal content, so only the AskUserQuestion branch can fire). -/
def parseInteraction (data : LogRecord) : Option Interaction × Bool :=
  if isAskUserQuestion data then parseAskUserQuestion data else (none, false)

structure SendDecision where
  send : Bool
  interaction : Option Interaction
  pureText : Bool
deriving DecidableEq, Repr

/-- `InteractionParser.shouldSendMessage` (part_002 lines 196-210), paired
with the warning flag of the parse step. -/
def shouldSendMessage (data : LogRecord) : SendDecision × Bool :=
  let r := parseInteraction data
  match r.1 with
  | some i => ({ send := true, interaction := some i, pureText := false }, r.2)
  | none =>
    if isPureText data then ({ send := true, interaction := none, pureText := true }, r.2)
    else ({ send := false, interaction := none, pureText := false }, r.2)

/-- `InteractionParser.extractText`: all text-block payloads joined by `'\n'`. -/
def extractText (data : LogRecord) : Str :=
  List.intercalate ['\n']
    ((((contentOf data).getD []).filter (fun c => c.type == "text".toList && truthy c.text)).map
      (fun c => c.text.getD []))

/-! ## In-memory processed-message cache of TranscriptMonitor
(`processedMessages`, a bounded insertion-ordered map) -/

def maxProcessedMessages : Nat := 1000

def processedMessagesTTL : Nat := 3600000

/-- `TranscriptMonitor.isNewAssistantMessage` (lines 787-796). The persistent
lookup runs only when every earlier conjunct holds (JS `&&` short-circuit),
and may itself evict an expired entry, so the (possibly updated) store is
returned. -/
def isNewAssistantMessage (mem : List (Str × Nat)) (store : StoreState) (data : LogRecord)
    (now : Nat) : Bool × StoreState :=
  if data.type == "assistant".toList
      && (match data.message with
          | none => false
          | some m => m.role == "assistant".toList)
      && truthy data.uuid
      && !jsHas mem (data.uuid.getD []) then
    let r := hasUuid store (data.uuid.getD []) now
    (!r.1, r.2)
  else (false, store)

/-- `TranscriptMonitor.markMessageProcessed` (lines 802-820): delete+re-insert
into the in-memory map (moves the id to the back), persist via `addUuid`,
then evict the oldest in-memory entry past the 1000-entry cap. -/
def markMessageProcessed (mem : List (Str × Nat)) (store : StoreState) (uuid : Str)
    (now : Nat) : List (Str × Nat) × StoreState :=
  let m := jsDel mem uuid ++ [(uuid, now)]
  let store1 := addUuid store uuid now
  (if m.length > maxProcessedMessages then jsDelFirst m else m, store1)

/-- `TranscriptMonitor.cleanupProcessedMessages` (lines 825-842). -/
def cleanupProcessedMessages (mem : List (Str × Nat)) (now : Nat) : List (Str × Nat) :=
  mem.filter (fun e => !decide (now - e.2 > processedMessagesTTL))

/-- The seen-check the processing loop actually applies to an identifier:
the negation of the last two conjuncts of `isNewAssistantMessage` (in-memory
cache hit, or persistent-store hit). -/
def seenByLoop (mem : List (Str × Nat)) (store : StoreState) (uuid : Str) (now : Nat) : Bool :=
  jsHas mem uuid || (hasUuid store uuid now).1

/-! ## DeliveryPipeline: `TranscriptMonitor.splitMessage` (lines 1034-1094)
and `sendToFeishu` (lines 848-881) -/

def MAX_SINGLE_MESSAGE : Nat := 15000

def SPLIT_THRESHOLD : Nat := 12000

/-- JS `text.split(/\n\n+/)`: fields between maximal runs of two or more
newlines. Fuel-indexed structural recursion; `fuel ≥ s.length` is always
sufficient since every step consumes at least one character. -/
def splitParasAux : Nat → Str → Str → List Str
  | _, cur, [] => [cur]
  | _, cur, [c] => [cur ++ [c]]
  | 0, cur, rest => [cur ++ rest]
  | fuel + 1, cur, c1 :: c2 :: rest =>
    if c1 = '\n' ∧ c2 = '\n' then
      cur :: splitParasAux fuel [] (rest.dropWhile (fun c => c == '\n'))
    else
      splitParasAux fuel (cur ++ [c1]) (c2 :: rest)

def splitParas (s : Str) : List Str :=
  splitParasAux s.length [] s

/-- The inner by-line loop of `splitMessage` (lines 1059-1081), returning the
chunks it pushed and the final `lineChunk`. A line longer than the limit is
hard-split into `maxLength`-character slices. -/
def splitLinesLoop (maxLength : Nat) : List Str → Str → List Str × Str
  | [], lineChunk => ([], lineChunk)
  | line :: rest, lineChunk =>
    let testLine := lineChunk ++ (if lineChunk = [] then [] else ['\n']) ++ line
    if testLine.length ≤ maxLength then splitLinesLoop maxLength rest testLine
    else
      let pushed := if lineChunk = [] then [] else [lineChunk]
      if line.length > maxLength then
        let r := splitLinesLoop maxLength rest []
        (pushed ++ chunksOf maxLength line ++ r.1, r.2)
      else
        let r := splitLinesLoop maxLength rest line
        (pushed ++ r.1, r.2)

/-- The outer by-paragraph loop of `splitMessage` (lines 1046-1087). -/
def splitParasLoop (maxLength : Nat) : List Str → Str → List Str × Str
  | [], currentChunk => ([], currentChunk)
  | para :: rest, currentChunk =>
    let testChunk := currentChunk ++ (if currentChunk = [] then [] else ['\n', '\n']) ++ para
    if testChunk.length ≤ maxLength then splitParasLoop maxLength rest testChunk
    else
      let pushed := if currentChunk = [] then [] else [currentChunk]
      if para.length > maxLength then
        let lr := splitLinesLoop maxLength (splitNl para) []
        let r := splitParasLoop maxLength rest lr.2
        (pushed ++ lr.1 ++ r.1, r.2)
      else
        let r := splitParasLoop maxLength rest para
        (pushed ++ r.1, r.2)

/-- `TranscriptMonitor.splitMessage` (lines 1034-1094). -/
def splitMessage (text : Str) (maxLength : Nat) : List Str :=
  if text.length ≤ maxLength then [text]
  else
    let r := splitParasLoop maxLength (splitParas text) []
    let chunks := r.1 ++ (if r.2 = [] then [] else [r.2])
    if chunks = [] then [text.take maxLength] else chunks

/-- The `` `[i/total]` `` marker prepended to each piece of a multi-chunk
message (line 869). -/
def chunkMarker (i total : Nat) : Str :=
  ("`[" ++ toString i ++ "/" ++ toString total ++ "]`\n\n").toList

/-- The message texts `sendToFeishu` (lines 848-881) passes to
`messenger.sendText`, in order: the text itself when short, otherwise the
marker-prefixed chunks of `splitMessage text MAX_SINGLE_MESSAGE`. -/
def sendToFeishuMsgs (text : Str) : List Str :=
  if text.length ≤ SPLIT_THRESHOLD then [text]
  else
    let chunks := splitMessage text MAX_SINGLE_MESSAGE
    chunks.enum.map (fun p =>
      (if chunks.length > 1 then chunkMarker (p.1 + 1) chunks.length else []) ++ p.2)

/-! ## Plan-mode detection (extended InteractionParser: `isExitPlanMode`,
`parseExitPlanMode`; `TranscriptMonitor.checkPlanMode`, `handleExitPlanMode`,
`_hashPlanModeContent`) -/

/-- Test of `/^\s*❯\s*\d+\./` against one line. -/
def matchCursorNumDot (l : Str) : Bool :=
  match l.dropWhile (fun c => c.isWhitespace) with
  | [] => false
  | c :: rest =>
    c == '❯' &&
      (let r2 := rest.dropWhile (fun c => c.isWhitespace)
       let ds := r2.takeWhile Char.isDigit
       decide (ds ≠ []) && ((r2.drop ds.length).head? == some '.'))

/-- Test of `/^\s*\d+\.\s+Yes/` (`withComma` adds the trailing comma of the
variant used by `isExitPlanMode`) against one line. -/
def matchNumDotYes (withComma : Bool) (l : Str) : Bool :=
  let l1 := l.dropWhile (fun c => c.isWhitespace)
  let ds := l1.takeWhile Char.isDigit
  decide (ds ≠ []) &&
    (match l1.drop ds.length with
     | '.' :: r4 =>
       let w := r4.takeWhile (fun c => c.isWhitespace)
       decide (w ≠ []) &&
         ((if withComma then "Yes,".toList else "Yes".toList).isPrefixOf (r4.drop w.length))
     | _ => false)

/-- `InteractionParser.isExitPlanMode`: both marker phrases present, plus a
numbered-options line in either accepted shape. -/
def isExitPlanMode (content : Str) : Bool :=
  (strIncludes content "written up a plan".toList &&
   strIncludes content "Would you like to proceed".toList) &&
  ((splitNl content).any matchCursorNumDot ||
   (splitNl content).any (matchNumDotYes true))

/-- `TranscriptMonitor._hashPlanModeContent` (lines 1464-1469): the
option lines joined by `'|'` (comparison hash; timestamps and decoration
lines are excluded). -/
def hashPlanModeContent (content : Str) : Str :=
  List.intercalate ['|']
    ((splitNl content).filter (fun l => matchCursorNumDot l || matchNumDotYes false l))

/-- `parseInt` on a digit string. -/
def digitsToNat (ds : Str) : Nat :=
  ds.foldl (fun n c => n * 10 + (c.toNat - 48)) 0

/-- Shared tail of the two option regexes: `(\d+)\.\s+(.+)$` with JS
backtracking semantics. Returns the parsed number and the capture of `(.+)$`
(as `[]` when backtracking leaves only a whitespace capture, which the caller
discards after trimming anyway). -/
def parseNumDotTail (r2 : Str) : Option (Nat × Str) :=
  let ds := r2.takeWhile Char.isDigit
  if ds = [] then none
  else
    match r2.drop ds.length with
    | '.' :: r4 =>
      let w := r4.takeWhile (fun c => c.isWhitespace)
      let t := r4.drop w.length
      if w = [] then none
      else if t ≠ [] then some (digitsToNat ds, t)
      else if 2 ≤ w.length then some (digitsToNat ds, [])
      else none
    | _ => none

/-- Search of `/❯\s*(\d+)\.\s+(.+)$/` anywhere in a line: try each `❯`
occurrence left to right. -/
def scanCursorOption : Str → Option (Nat × Str)
  | [] => none
  | c :: rest =>
    if c == '❯' then
      match parseNumDotTail (rest.dropWhile (fun c2 => c2.isWhitespace)) with
      | some r => some r
      | none => scanCursorOption rest
    else scanCursorOption rest

/-- Test of `/^\s{3}(\d+)\.\s+(.+)$/`: exactly three leading whitespace
characters, digits immediately after. -/
def matchIndentOption (l : Str) : Option (Nat × Str) :=
  match l with
  | a :: b :: c :: rest =>
    if a.isWhitespace && b.isWhitespace && c.isWhitespace then parseNumDotTail rest
    else none
  | _ => none

/-- One loop iteration of `parseExitPlanMode` (lines 863-884): the cursor
form wins; its `else if` means a cursor match with blank text suppresses the
indent form; blank trimmed captures are not pushed. -/
def planOptionOfLine (l : Str) : Option (Nat × Str) :=
  match scanCursorOption l with
  | some r => if strTrim r.2 = [] then none else some (r.1, strTrim r.2)
  | none =>
    match matchIndentOption l with
    | some r => if strTrim r.2 = [] then none else some (r.1, strTrim r.2)
    | none => none

def vimMarker : Str := "ctrl-g to edit in Vim".toList

/-- The lazy group `(.+?\.md)`: consume at least one non-newline character,
then the earliest `.md` completes the capture. -/
def grabMdGo : Str → Str → Option Str
  | _, [] => none
  | acc, c :: rest =>
    if c = '\n' then none
    else if (".md".toList).isPrefixOf rest then some (acc ++ [c] ++ ".md".toList)
    else grabMdGo (acc ++ [c]) rest

/-- `/ctrl-g to edit in Vim\s+·\s+(.+?\.md)/` applied after a marker
occurrence. -/
def parsePlanPathAt (rest : Str) : Option Str :=
  let w1 := rest.takeWhile (fun c => c.isWhitespace)
  if w1 = [] then none
  else
    match rest.drop w1.length with
    | '·' :: r2 =>
      let w2 := r2.takeWhile (fun c => c.isWhitespace)
      if w2 = [] then none else grabMdGo [] (r2.drop w2.length)
    | _ => none

/-- Leftmost search for the plan-file pattern (lines 887-891), trimmed like
`match[1].trim()`. -/
def findPlanPathGo : Str → Option Str
  | [] => none
  | c :: rest =>
    if vimMarker.isPrefixOf (c :: rest) then
      match parsePlanPathAt ((c :: rest).drop vimMarker.length) with
      | some p => some p
      | none => findPlanPathGo rest
    else findPlanPathGo rest

def findPlanPath (content : Str) : Option Str :=
  (findPlanPathGo content).map strTrim

/-- `InteractionParser.parseExitPlanMode` (lines 857-907). -/
def parseExitPlanMode (content : Str) : Interaction :=
  { type := InteractionType.exitPlanMode,
    uuid := none,
    question := { text := "Claude 已完成计划编写，请选择下一步操作：".toList,
                  header := "📋 计划已生成".toList,
                  options := ((splitNl content).filterMap planOptionOfLine).map
                    (fun p => { num := some p.1, label := p.2,
                                description := none, value := some p.2 }),
                  multiSelect := false },
    planFilePath := findPlanPath content }

/-! ## Outbound message construction and the per-record pipeline -/

/-- What the monitor hands to the Messenger: either the structured
`sendAskUserQuestion` payload, or a plain `sendText` string. -/
inductive SentItem where
  | askCard (q : QuestionData)
  | text (s : Str)
deriving DecidableEq, Repr

/-- One option line of the `handleAskUserQuestion` fallback rendering
(lines 926-935). -/
def renderAskOption (i : Nat) (opt : OptionData) : Str :=
  (toString (i + 1)).toList ++ ". ".toList ++ opt.label ++
    (match opt.description with
     | some d => "\n   └─ ".toList ++ d
     | none => []) ++ ['\n']

/-- The `handleAskUserQuestion` fallback text (lines 917-939), used when the
Messenger lacks `sendAskUserQuestion`. -/
def renderAskUserQuestion (q : QuestionData) : Str :=
  "❓ **Claude Code 需要您回答问题**\n\n".toList
    ++ (if q.header = [] then [] else "**".toList ++ q.header ++ "**\n\n".toList)
    ++ q.text ++ "\n\n".toList
    ++ (if q.options = [] then []
        else
          "**请选择：**\n\n".toList
            ++ (q.options.enum.map (fun p => renderAskOption p.1 p.2)).flatten
            ++ "\n💡 回复数字 ".toList
            ++ (if q.multiSelect then "（可多选，用逗号分隔）".toList else "选择".toList)
            ++ "确认".toList)

def maxPlanLength : Nat := 5000

/-- The plan-document truncation in `handleExitPlanMode` (lines 996-1000):
documents beyond 5000 characters are cut there, with an ellipsis note giving
the original length. -/
def truncatedPlan (doc : Str) : Str :=
  if doc.length > maxPlanLength then
    doc.take maxPlanLength
      ++ "\n\n... (计划过长，已截断，共 ".toList ++ (toString doc.length).toList ++ " 字符)".toList
  else doc

/-- The `handleExitPlanMode` message (lines 989-1013). `docRead` is the
filesystem oracle for the referenced plan document (`fs.readFileSync` of the
tilde-expanded path; a `none` covers both a missing file and a read error). -/
def buildExitPlanModeMessage (i : Interaction) (docRead : Str → Option Str) : Str :=
  "📋 **".toList ++ i.question.header ++ "**\n\n".toList
    ++ (match i.planFilePath with
        | some p =>
          match docRead p with
          | some doc =>
            "**📄 计划内容** (`".toList ++ p ++ "`):\n\n".toList
              ++ truncatedPlan doc ++ "\n\n".toList
          | none => "📄 计划文件: `".toList ++ p ++ "`\n\n".toList
        | none => [])
    ++ "**请选择下一步操作：**\n\n".toList
    ++ (i.question.options.map (fun opt =>
          (match opt.num with
           | some n => (toString n).toList
           | none => "undefined".toList) ++ ". ".toList ++ opt.label ++ ['\n'])).flatten
    ++ "\n💡 回复数字选择操作".toList

/-- `TranscriptMonitor.handleInteraction` (lines 887-898): the Messenger
payloads it produces for one interaction. -/
def handleInteractionMsgs (i : Interaction) (hasAskApi : Bool)
    (docRead : Str → Option Str) : List SentItem :=
  match i.type with
  | InteractionType.askUserQuestion =>
    if hasAskApi then [SentItem.askCard i.question]
    else [SentItem.text (renderAskUserQuestion i.question)]
  | InteractionType.exitPlanMode =>
    [SentItem.text (buildExitPlanModeMessage i docRead)]

/-- Whether the Messenger delivery of this record's messages succeeds. A
failure is caught and logged inside `sendToFeishu` / `handleInteraction`
(lines 878-880, 895-897); it never escapes to `processFile`. -/
inductive DeliveryOutcome where
  | ok
  | fail
deriving DecidableEq, Repr

structure ProcResult where
  mem : List (Str × Nat)
  store : StoreState
  sent : List SentItem
deriving DecidableEq, Repr

/-- The per-line body of `TranscriptMonitor.processFile` (lines 1300-1334)
for one decoded record: dedup check, send decision, interaction and/or plain
text delivery, then `markMessageProcessed` — reached on every branch of a
new assistant message, delivered or not, failed or not. Under a `fail`
outcome the delivered list is cut to `[]` (messages before the failure point
do go out; the embedding only tracks the state effects, which are
outcome-independent). -/
def processRecord (mem : List (Str × Nat)) (store : StoreState) (data : LogRecord)
    (now : Nat) (hasAskApi : Bool) (docRead : Str → Option Str)
    (out : DeliveryOutcome) : ProcResult :=
  let nw := isNewAssistantMessage mem store data now
  if nw.1 then
    let u := data.uuid.getD []
    let d := (shouldSendMessage data).1
    if !d.send then
      let m := markMessageProcessed mem nw.2 u now
      ⟨m.1, m.2, []⟩
    else
      let msgs :=
        (match d.interaction with
         | some i => handleInteractionMsgs i hasAskApi docRead
         | none => [])
          ++ (if d.pureText then
                (if extractText data = [] then [] else (sendToFeishuMsgs (extractText data)).map SentItem.text)
              else [])
      let m := markMessageProcessed mem nw.2 u now
      ⟨m.1, m.2, if out = DeliveryOutcome.ok then msgs else []⟩
  else ⟨mem, nw.2, []⟩

/-! ## Plan-mode cycle state (`checkPlanMode`, lines 1414-1457) -/

structure PlanState where
  lastNotifiedPlanModeContent : Option Str
  lastPlanModeNotifyTime : Option Nat
deriving DecidableEq, Repr

def planModeCooldown : Nat := 300000

/-- `TranscriptMonitor.checkPlanMode`: on a detected plan-ready terminal
state, skip when the option-line hash equals the last notified one inside the
5-minute cool-down, otherwise parse, deliver one message and record hash and
time; on a non-matching terminal state reset the notification record. The
identifier dedup tables (`processedMessages`, `PersistedStateStore`) are
neither consulted nor touched on this path. -/
def checkPlanMode (ps : PlanState) (content : Str) (docRead : Str → Option Str)
    (now : Nat) : List SentItem × PlanState :=
  if !nonBlank content then ([], ps)
  else if isExitPlanMode content then
    let h := hashPlanModeContent content
    let skip := ps.lastNotifiedPlanModeContent == some h &&
      (match ps.lastPlanModeNotifyTime with
       | some t => decide (t ≠ 0) && decide (now - t < planModeCooldown)
       | none => false)
    if skip then ([], ps)
    else
      ([SentItem.text (buildExitPlanModeMessage (parseExitPlanMode content) docRead)],
       { lastNotifiedPlanModeContent := some h, lastPlanModeNotifyTime := some now })
  else ([], { lastNotifiedPlanModeContent := none, lastPlanModeNotifyTime := none })

/-! ## Session resolution and the cycle skeleton (`getCurrentSessionId`
lines 376-471, `reset` lines 476-490, `checkAndProcess` lines 1108-1239) -/

structure WatchState where
  position : Nat
  lastSize : Nat
deriving DecidableEq, Repr

structure MonState where
  currentSessionId : Option Str
  lastProcessedSessionId : Option Str
  waitingForNewSession : Bool
  watchedFiles : List (Str × WatchState)
  processedMessages : List (Str × Nat)
  store : StoreState
deriving DecidableEq, Repr

/-- `TranscriptMonitor.reset` (lines 476-490): remember the outgoing id,
drop the cached id, clear watched files, the in-memory cache and the whole
persisted store, and enter waiting-for-new-session mode. -/
def monReset (st : MonState) : MonState :=
  { currentSessionId := none,
    lastProcessedSessionId := st.currentSessionId,
    waitingForNewSession := true,
    watchedFiles := [],
    processedMessages := [],
    store := storeClear st.store }

/-- `TranscriptMonitor.getCurrentSessionId` (lines 376-471). `resolved` is
the id of the most-recently-modified candidate the directory scan yields
(`none`: no candidates or missing project directory). On a change of id:
possibly end waiting mode, clear the watched-file set, and purge the old
session's file positions from the store. -/
def getCurrentSessionId (st : MonState) (resolved : Option Str) (forceRefresh : Bool) :
    Option Str × MonState :=
  if st.currentSessionId.isSome && !forceRefresh then (st.currentSessionId, st)
  else
    match resolved with
    | none => (none, st)
    | some newId =>
      if st.currentSessionId == some newId then (some newId, st)
      else
        let st1 :=
          if st.waitingForNewSession && !(some newId == st.lastProcessedSessionId) then
            { st with waitingForNewSession := false, lastProcessedSessionId := none }
          else st
        let st2 := { st1 with watchedFiles := [] }
        let st3 :=
          match st.currentSessionId with
          | some oldId => { st2 with store := clearSessionFiles st2.store oldId }
          | none => st2
        (some newId, { st3 with currentSessionId := some newId })

/-- File-set reconciliation of `checkAndProcess` (lines 1197-1231): with no
session or no files, return before any per-file work; otherwise seed newly
seen paths from the session-scoped checkpoint (offset 0 if absent), drop
vanished paths, and proceed to per-file processing (`Bool` result: whether
the per-file stage ran). -/
def cycleFileStage (st : MonState) (sid : Option Str) (fsFiles : List Str) :
    MonState × Bool :=
  match sid with
  | none => (st, false)
  | some s =>
    if fsFiles = [] then (st, false)
    else
      let wf := fsFiles.foldl (fun acc p =>
        if jsHas acc p then acc
        else
          match getFilePosition st.store s p with
          | some fp => jsSet acc p ⟨fp.position, fp.lastSize⟩
          | none => jsSet acc p ⟨0, 0⟩) st.watchedFiles
      let wf2 := wf.filter (fun e => fsFiles.contains e.1)
      ({ st with watchedFiles := wf2 }, true)

/-- The session-gating skeleton of one `checkAndProcess` cycle (lines
1163-1231): resolve the session id (forced while waiting, else on the
periodic timer `timerForce`), skip everything while waiting for a new
session and the resolved id still equals the recorded outgoing one, end the
waiting state on a genuinely different id, then reconcile the file set. -/
def cycleStep (st : MonState) (resolved : Option Str) (timerForce : Bool)
    (fsFiles : List Str) : MonState × Bool :=
  let force := st.waitingForNewSession || timerForce
  let r := getCurrentSessionId st resolved force
  if r.2.waitingForNewSession then
    if r.1 == r.2.lastProcessedSessionId then (r.2, false)
    else if r.1.isSome then
      cycleFileStage { r.2 with waitingForNewSession := false, lastProcessedSessionId := none }
        r.1 fsFiles
    else cycleFileStage r.2 r.1 fsFiles
  else cycleFileStage r.2 r.1 fsFiles

/-! ## Concrete states and records used by counterexamples and witnesses -/

def emptyStore : StoreState := { processedUuids := [], filePositions := [] }

/-- A question entry with no `options` list. -/
def exEntryNoOptions : QEntry :=
  { question := some "Proceed?".toList, header := none, options := none, multiSelect := none }

/-- An AskUserQuestion invocation whose question entry lacks `options`. -/
def exAskNoOptionsItem : ContentItem :=
  { type := "tool_use".toList, text := none, name := some "AskUserQuestion".toList,
    input := some { questions := some [exEntryNoOptions] } }

/-- An AskUserQuestion invocation missing the `questions` list entirely. -/
def exAskNoQuestionsItem : ContentItem :=
  { type := "tool_use".toList, text := none, name := some "AskUserQuestion".toList,
    input := some { questions := none } }

def mkAssistantRecord (uuid : Str) (items : List ContentItem) : LogRecord :=
  { type := "assistant".toList, uuid := some uuid,
    message := some { role := "assistant".toList, content := some items } }

/-- An assistant record whose AskUserQuestion invocation has a question entry
without an `options` list. -/
def exAskNoOptions : LogRecord :=
  mkAssistantRecord "u1".toList [exAskNoOptionsItem]

/-- An assistant record whose AskUserQuestion invocation is missing the
`questions` list entirely. -/
def exAskNoQuestions : LogRecord :=
  mkAssistantRecord "u1".toList [exAskNoQuestionsItem]

/-- A deliverable plain-text assistant record. -/
def exTextRecord : LogRecord :=
  { type := "assistant".toList,
    uuid := some "u2".toList,
    message := some
      { role := "assistant".toList,
        content := some
          [ { type := "text".toList,
              text := some "Build finished".toList,
              name := none,
              input := none } ] } }

/-- A store holding one live identifier and file offsets of two sessions. -/
def exStoreTwoSessions : StoreState :=
  { processedUuids := [("u".toList, 5)],
    filePositions :=
      [ (makeFileKey "A".toList "p".toList, ⟨3, 3, 0, "A".toList⟩),
        (makeFileKey "B".toList "q".toList, ⟨7, 7, 0, "B".toList⟩) ] }

/-- A monitor on session `"A"`, carrying `exStoreTwoSessions`. -/
def exMonA : MonState :=
  { currentSessionId := some "A".toList,
    lastProcessedSessionId := none,
    waitingForNewSession := false,
    watchedFiles := [],
    processedMessages := [],
    store := exStoreTwoSessions }

/-- Terminal output in the plan-ready state. -/
def exPlanContent : Str :=
  ("Claude has written up a plan and is ready to execute.\n"
    ++ "Would you like to proceed?\n"
    ++ " ❯ 1. Yes, clear context\n"
    ++ "   2. No, keep planning\n").toList

def exNoDoc : Str → Option Str := fun _ => none

/-- C6 counterexample text: one 15000-character paragraph, a blank-line
separator, and a one-character paragraph — longer than one chunk, so the
split drops the separator at the chunk boundary. -/
def cexChunkText : Str := List.replicate 15000 'a' ++ '\n' :: '\n' :: ['b']

/-! ## Association-list (JS Map) helper lemmas -/

theorem jsGet_nil {α : Type} (k : Str) : jsGet ([] : List (Str × α)) k = none := rfl

theorem jsGet_eq_none_iff {α : Type} (m : List (Str × α)) (k : Str) :
    jsGet m k = none ↔ ∀ e ∈ m, ¬ e.1 = k := by
  unfold jsGet
  constructor
  · intro h e he
    cases hf : m.find? (fun e => e.1 == k) with
    | none => exact fun hk => by simpa [hk] using List.find?_eq_none.mp hf e he
    | some e2 => simp [hf] at h
  · intro h
    rw [List.find?_eq_none.mpr (fun e he => by simpa using h e he)]
    rfl

theorem jsGet_jsDel_self {α : Type} (m : List (Str × α)) (k : Str) :
    jsGet (jsDel m k) k = none := by
  rw [jsGet_eq_none_iff]
  intro e he hk
  have := (List.mem_filter.mp he).2
  simp [hk] at this

theorem jsGet_append_keysNe {α : Type} (m : List (Str × α)) (u : Str) (v : α)
    (h : ∀ e ∈ m, ¬ e.1 = u) : jsGet (m ++ [(u, v)]) u = some v := by
  unfold jsGet
  rw [List.find?_append, List.find?_eq_none.mpr (fun e he => by simpa using h e he)]
  simp

theorem jsGet_filter_key {α : Type} (m : List (Str × α)) (P : Str × α → Bool) (k : Str)
    (hP : ∀ v, P (k, v) = true) : jsGet (m.filter P) k = jsGet m k := by
  induction m with
  | nil => rfl
  | cons e m ih =>
    by_cases he : e.1 = k
    · have hPe : P e = true := by
        have : e = (k, e.2) := by rw [← he]
        rw [this]; exact hP e.2
      simp only [List.filter_cons, hPe, if_pos]
      unfold jsGet
      simp [List.find?_cons, he]
    · have hne : (e.1 == k) = false := beq_eq_false_iff_ne.mpr he
      by_cases hPe : P e = true
      · simp only [List.filter_cons, hPe, if_pos]
        unfold jsGet at ih ⊢
        simp only [List.find?_cons, hne, cond_false]
        exact ih
      · simp only [List.filter_cons, hPe, if_neg, Bool.false_eq_true, not_false_iff]
        unfold jsGet at ih ⊢
        simp only [List.find?_cons, hne, cond_false]
        exact ih

theorem jsGet_mem_values {α : Type} (m : List (Str × α)) (k : Str) (v : α)
    (h : jsGet m k = some v) : (k, v) ∈ m := by
  unfold jsGet at h
  cases hf : m.find? (fun e => e.1 == k) with
  | none => simp [hf] at h
  | some e =>
    have he := List.mem_of_find?_eq_some hf
    have hp := List.find?_some hf
    have h1 : e.1 = k := by simpa using hp
    have h2 : e.2 = v := by simp [hf] at h; exact h
    have : e = (k, v) := by
      calc e = (e.1, e.2) := rfl
        _ = (k, v) := by rw [h1, h2]
    exact this ▸ he

/-! ## C3 and C4: reader and offset theorems -/

/-- C3: the per-file read offset never decreases across a processing cycle
(`processFile` either leaves it or advances it to the file size), and a
session switch purges that session's persisted offset entries outright
(`clearSessionFiles` leaves no entry retrievable for the purged session). -/
theorem offset_monotone_and_purged_on_switch (position : Nat) (file : Str)
    (store : StoreState) (s p : Str) (hs : s ≠ []) :
    position ≤ processFilePosition position file ∧
    getFilePosition (clearSessionFiles store s) s p = none := by
  constructor
  · unfold processFilePosition
    by_cases h : readNewLines file position = []
    · simp [h]
    · have hlt : position < file.length := by
        by_contra hge
        exact h (by unfold readNewLines; rw [if_pos (Nat.not_lt.mp hge)])
      simp [h, Nat.le_of_lt hlt]
  · unfold clearSessionFiles
    rw [if_neg hs]
    unfold getFilePosition
    show jsGet (List.filter _ store.filePositions) (makeFileKey s p) = none
    rw [jsGet_eq_none_iff]
    intro e he hk
    have hpr : (s ++ [':']).isPrefixOf e.1 = true := by
      rw [hk]
      unfold makeFileKey
      rw [if_neg hs]
      exact List.isPrefixOf_iff_prefix.mpr (by simpa using List.prefix_append (s ++ [':']) p)
    have := (List.mem_filter.mp he).2
    simp [hpr] at this

/-- C4 counterexample: a record whose bytes straddle the fixed 8192-byte
chunk boundary is NOT always returned whole and unaltered. The transcript
of 8191 `'a'` bytes, the two-byte character U+00E9 (`0xC3 0xA9`) and a
newline is read from offset 0 as one record ending in two U+FFFD
replacement characters — the first chunk's decode (line 705) truncates the
lead byte `0xC3`, the second chunk's decode sees the orphan continuation
byte `0xA9` — whereas the record the spec promises ends in the intact
U+00E9; the reader's output therefore differs from the exact records of
`[P, N)`. -/
theorem readNewLines_utf8_boundary_cex :
    readNewLinesBytes cexUtf8Bytes 0 =
      [List.replicate 8191 'a' ++ [replacementChar, replacementChar]] ∧
    specRecordsBytes cexUtf8Bytes 0 =
      [List.replicate 8191 'a' ++ [Char.ofNat 0xE9]] ∧
    readNewLinesBytes cexUtf8Bytes 0 ≠ specRecordsBytes cexUtf8Bytes 0 := by
  refine ⟨cexUtf8Bytes_read, cexUtf8Bytes_spec, ?_⟩
  rw [cexUtf8Bytes_read, cexUtf8Bytes_spec]
  intro h
  injection h with h2 h3
  have hlen := congrArg List.length h2
  rw [List.length_append, List.length_append, List.length_replicate] at hlen
  simp only [List.length_cons, List.length_nil] at hlen
  omega

/-- C4 amended: reading a file of size `N` from offset `P` yields `[]` when
`P ≥ N`, and for `P < N` yields exactly the complete newline-delimited
records of bytes `[P, N)` with blank lines discarded — each record whole
and unaltered across the 8192-byte chunk boundary — provided no multi-byte
UTF-8 sequence straddles a chunk boundary, in particular for single-byte
(ASCII) content as proven here; a record containing a multi-byte character
whose bytes do straddle the boundary is altered, the straddling character
decoded per-chunk into U+FFFD replacement characters (the
counterexample). -/
theorem readNewLinesBytes_ascii_exact (file : List Nat) (P : Nat)
    (hascii : ∀ b ∈ file, b < 0x80) :
    readNewLinesBytes file P =
      if P < file.length then specRecordsBytes file P else [] := by
  unfold readNewLinesBytes specRecordsBytes
  by_cases h : file.length ≤ P
  · rw [if_pos h, if_neg (Nat.not_lt.mpr h)]
  · have hlt : P < file.length := Nat.not_le.mp h
    rw [if_neg h, if_pos hlt]
    have hd : ∀ b ∈ file.drop P, b < 0x80 := fun b hb => hascii b (List.mem_of_mem_drop hb)
    have hflat : (byteChunksOf CHUNK_SIZE (file.drop P)).flatten = file.drop P :=
      byteChunksOf_flatten CHUNK_SIZE _ (by norm_num [CHUNK_SIZE])
    have hchunks : ∀ c ∈ byteChunksOf CHUNK_SIZE (file.drop P), ∀ b ∈ c, b < 0x80 := by
      intro c hc b hb
      have hbf : b ∈ (byteChunksOf CHUNK_SIZE (file.drop P)).flatten :=
        List.mem_flatten.mpr ⟨c, hc, hb⟩
      rw [hflat] at hbf
      exact hd b hbf
    rw [byteReadLoop_ascii _ [] hchunks, readLoop_eq _ [] (by simp),
        utf8Decode_ascii _ hd, List.nil_append, ← List.map_flatten, hflat]

/-- Witness for the amended C4 theorem at the ASCII transcript
`"a\nb"` (bytes `0x61 0x0A 0x62`) read from offset 0. -/
theorem readNewLinesBytes_ascii_exact_witness :
    (∀ b ∈ ([0x61, 0x0A, 0x62] : List Nat), b < 0x80) ∧
    readNewLinesBytes [0x61, 0x0A, 0x62] 0 =
      (if 0 < ([0x61, 0x0A, 0x62] : List Nat).length
       then specRecordsBytes [0x61, 0x0A, 0x62] 0 else []) :=
  ⟨by decide, readNewLinesBytes_ascii_exact [0x61, 0x0A, 0x62] 0 (by decide)⟩

/-! ## C5: the unterminated trailing fragment -/

/-- C5 counterexample: with file contents `"ab"` (an unterminated final line
that is still growing) and offset `0`, the reader emits the fragment `"ab"`
at once and `processFile` advances the offset to the file size `2`; when the
line later completes to `"abc\n"`, the next cycle reads only `"c"` — so the
growing line is emitted immediately (not retained), the offset does advance
past it, and the line `"abc"` is delivered in two pieces, never whole. -/
theorem trailingFragment_cex :
    readNewLines "ab".toList 0 = ["ab".toList] ∧
    processFilePosition 0 "ab".toList = 2 ∧
    readNewLines "abc\n".toList 2 = ["c".toList] := by decide

/-- C5 amended: an unterminated non-blank trailing fragment at end of stream
is always emitted immediately as a record of its own, and the offset advances
to the end of the file; when the remainder of the line arrives in a later
cycle it is emitted as a separate record, so a line growing across cycles is
delivered in pieces rather than retained until it stops growing. -/
theorem trailingFragment_emitted_immediately (pre ext : Str)
    (hp : '\n' ∉ pre) (hb : nonBlank pre = true)
    (he : '\n' ∉ ext) (hbe : nonBlank ext = true) :
    readNewLines pre 0 = [pre] ∧
    processFilePosition 0 pre = pre.length ∧
    readNewLines (pre ++ ext ++ ['\n']) pre.length = [ext] := by
  have hpre_ne : pre ≠ [] := by
    intro h
    rw [h] at hb
    simp [nonBlank] at hb
  have hpos : 0 < pre.length := List.length_pos.mpr hpre_ne
  have h1 : readNewLines pre 0 = [pre] := by
    rw [readNewLines_eq_spec, if_pos hpos]
    unfold specRecords splitNl
    rw [List.drop_zero, splitNlP_no_nl pre hp]
    simp [hb]
  refine ⟨h1, ?_, ?_⟩
  · unfold processFilePosition
    rw [h1]
    simp
  · have hlt : pre.length < (pre ++ ext ++ ['\n']).length := by
      simp
    rw [readNewLines_eq_spec, if_pos hlt]
    unfold specRecords
    have hdrop : (pre ++ ext ++ ['\n']).drop pre.length = ext ++ ['\n'] := by
      rw [List.append_assoc]
      exact List.drop_left pre (ext ++ ['\n'])
    rw [hdrop]
    unfold splitNl
    rw [splitNlP_append ext ['\n']]
    have hnl : splitNlP ['\n'] = ([[]], []) := rfl
    rw [hnl, splitNlP_no_nl ext he]
    have hnbe : nonBlank ([] : Str) = false := rfl
    simp [snlCombine, List.filter_cons, hbe, hnbe]

/-- Witness for `trailingFragment_emitted_immediately` at `pre = "ab"`,
`ext = "c"`. -/
theorem trailingFragment_emitted_immediately_witness :
    readNewLines "ab".toList 0 = ["ab".toList] ∧
    processFilePosition 0 "ab".toList = "ab".toList.length ∧
    readNewLines ("ab".toList ++ "c".toList ++ ['\n']) "ab".toList.length = ["c".toList] :=
  trailingFragment_emitted_immediately "ab".toList "c".toList
    (by decide) (by decide) (by decide) (by decide)

/-! ## C2: TTL semantics of the seen-check -/

/-- C2 counterexample: mark `"u"` seen at `t = 1`; at `t = 3600002` the TTL
(3600000 ms) has elapsed, yet the seen-check used by the processing loop
still answers `true`, because the in-memory cache consults only membership
(`processedMessages.has`), never the TTL — only the persistent-store layer
expires. -/
theorem seen_true_after_ttl_cex :
    uuidTtl < 3600002 - 1 ∧
    (let m := markMessageProcessed [] ⟨[], []⟩ "u".toList 1
     seenByLoop m.1 m.2 "u".toList 3600002) = true := by decide

theorem hasUuid_fresh_true (st : StoreState) (u : Str) (t0 now1 : Nat)
    (hget : jsGet st.processedUuids u = some t0) (ht0 : 0 < t0)
    (hle : now1 - t0 ≤ uuidTtl) : (hasUuid st u now1).1 = true := by
  unfold hasUuid
  rw [hget]
  show (if t0 = 0 then (false, st)
        else if now1 - t0 > uuidTtl then
          (false, { st with processedUuids := jsDel st.processedUuids u })
        else (true, st)).1 = true
  rw [if_neg (Nat.pos_iff_ne_zero.mp ht0), if_neg (Nat.not_lt.mpr hle)]

theorem hasUuid_expired (st : StoreState) (u : Str) (t0 now1 : Nat)
    (hget : jsGet st.processedUuids u = some t0) (ht0 : 0 < t0)
    (hgt : uuidTtl < now1 - t0) :
    (hasUuid st u now1).1 = false ∧
    jsGet (hasUuid st u now1).2.processedUuids u = none := by
  unfold hasUuid
  rw [hget]
  constructor
  · show (if t0 = 0 then (false, st)
          else if now1 - t0 > uuidTtl then
            (false, { st with processedUuids := jsDel st.processedUuids u })
          else (true, st)).1 = false
    rw [if_neg (Nat.pos_iff_ne_zero.mp ht0), if_pos hgt]
  · show jsGet (if t0 = 0 then (false, st)
          else if now1 - t0 > uuidTtl then
            (false, { st with processedUuids := jsDel st.processedUuids u })
          else (true, st)).2.processedUuids u = none
    rw [if_neg (Nat.pos_iff_ne_zero.mp ht0), if_pos hgt]
    exact jsGet_jsDel_self st.processedUuids u

theorem addUuid_get_self (st : StoreState) (u : Str) (now2 : Nat)
    (hget : jsGet st.processedUuids u = none) :
    jsGet (addUuid st u now2).processedUuids u = some now2 := by
  have hkeys : ∀ e ∈ st.processedUuids, ¬ e.1 = u := (jsGet_eq_none_iff _ _).mp hget
  have hfind : st.processedUuids.find? (fun e => e.1 == u) = none :=
    List.find?_eq_none.mpr (fun e he => by simpa using hkeys e he)
  have hset : jsSet st.processedUuids u now2 = st.processedUuids ++ [(u, now2)] := by
    unfold jsSet
    rw [hfind]
    rfl
  unfold addUuid
  rw [hset]
  by_cases hlen : (st.processedUuids ++ [(u, now2)]).length > 10000
  · simp only [hlen, if_pos]
    match hm : st.processedUuids with
    | [] => rw [hm] at hlen; simp at hlen
    | e :: rest =>
      show jsGet (jsDelFirst ((e :: rest) ++ [(u, now2)])) u = some now2
      show jsGet (rest ++ [(u, now2)]) u = some now2
      exact jsGet_append_keysNe rest u now2
        (fun e2 he2 => hkeys e2 (by rw [hm]; exact List.mem_cons_of_mem e he2))
  · simp only [hlen, if_neg, Bool.false_eq_true, not_false_iff]
    exact jsGet_append_keysNe st.processedUuids u now2 hkeys

theorem hasUuid_addUuid_fresh (st : StoreState) (u : Str) (now2 : Nat)
    (hget : jsGet st.processedUuids u = none) (hn2 : 0 < now2) :
    (hasUuid (addUuid st u now2) u now2).1 = true := by
  unfold hasUuid
  rw [addUuid_get_self st u now2 hget]
  simp [Nat.pos_iff_ne_zero.mp hn2]

/-- C2 amended: for the persistent store, `seen` holds for the whole TTL
window after a mark at `t0` (still `true` at exactly `now - t0 = TTL`),
turns `false` strictly after — the expired entry being lazily evicted by the
lookup itself — and a subsequent mark makes it `true` again (re-insertion).
The in-memory cache, by contrast, checks only membership: its entry outlives
the TTL until the periodic `cleanupProcessedMessages` (or eviction) removes
it, and only then does the loop's combined seen-check turn `false`. -/
theorem seen_ttl_semantics (store : StoreState) (mem : List (Str × Nat)) (u : Str)
    (t0 now1 now2 : Nat)
    (hget : jsGet store.processedUuids u = some t0) (ht0 : 0 < t0) (hn2 : 0 < now2) :
    (now1 - t0 ≤ uuidTtl → (hasUuid store u now1).1 = true) ∧
    (uuidTtl < now1 - t0 →
      (hasUuid store u now1).1 = false ∧
      jsGet (hasUuid store u now1).2.processedUuids u = none ∧
      (hasUuid (addUuid (hasUuid store u now1).2 u now2) u now2).1 = true) ∧
    ((∀ ts, (u, ts) ∈ mem → processedMessagesTTL < now1 - ts) →
      jsHas (cleanupProcessedMessages mem now1) u = false) := by
  refine ⟨fun hle => hasUuid_fresh_true store u t0 now1 hget ht0 hle, fun hgt => ?_, fun hmem => ?_⟩
  · obtain ⟨hfalse, hnone⟩ := hasUuid_expired store u t0 now1 hget ht0 hgt
    exact ⟨hfalse, hnone, hasUuid_addUuid_fresh _ u now2 hnone hn2⟩
  · unfold jsHas
    cases hg : jsGet (cleanupProcessedMessages mem now1) u with
    | none => rfl
    | some v =>
      exfalso
      have hmem2 := jsGet_mem_values _ _ _ hg
      unfold cleanupProcessedMessages at hmem2
      obtain ⟨hin, hpred⟩ := List.mem_filter.mp hmem2
      have : ¬ (now1 - v > processedMessagesTTL) := by simpa using hpred
      exact this (hmem v hin)

/-- Witness for `seen_ttl_semantics`: a store holding `"u" ↦ 7`, queried at
`7 + TTL` (still seen), at `7 + TTL + 1` (unseen, evicted, re-insertable at
`t = 9`), with an in-memory entry of the same age cleaned up. -/
theorem seen_ttl_semantics_witness :
    (3600008 - 7 ≤ uuidTtl → (hasUuid ⟨[("u".toList, 7)], []⟩ "u".toList 3600008).1 = true) ∧
    (uuidTtl < 3600008 - 7 →
      (hasUuid ⟨[("u".toList, 7)], []⟩ "u".toList 3600008).1 = false ∧
      jsGet (hasUuid ⟨[("u".toList, 7)], []⟩ "u".toList 3600008).2.processedUuids "u".toList = none ∧
      (hasUuid (addUuid (hasUuid ⟨[("u".toList, 7)], []⟩ "u".toList 3600008).2 "u".toList 9)
        "u".toList 9).1 = true) ∧
    ((∀ ts, ("u".toList, ts) ∈ [("u".toList, 7)] → processedMessagesTTL < 3600008 - ts) →
      jsHas (cleanupProcessedMessages [("u".toList, 7)] 3600008) "u".toList = false) :=
  seen_ttl_semantics ⟨[("u".toList, 7)], []⟩ [("u".toList, 7)] "u".toList 7 3600008 9
    (by decide) (by decide) (by decide)

/-! ## C10: what reset and a session switch delete -/

/-- C10 counterexample: on `exMonA` (one live identifier `"u"`, file offsets
for sessions `"A"` and `"B"`), an explicit `reset()` empties the identifier
table — the entry leaves the store with its TTL unexpired — and deletes the
file-offset entries of both sessions, not only the affected one. -/
theorem reset_clears_identifier_table_cex :
    (monReset exMonA).store.processedUuids = [] ∧
    jsGet exMonA.store.processedUuids "u".toList = some 5 ∧
    getFilePosition (monReset exMonA).store "B".toList "q".toList = none ∧
    getFilePosition exMonA.store "B".toList "q".toList = some ⟨7, 7, 0, "B".toList⟩ := by
  decide

/-- C10 amended: a session switch purges exactly the file-offset entries
keyed by the outgoing session's `"{id}:"` prefix and leaves the identifier
table untouched, and absent a reset an identifier entry leaves the store
only through TTL expiry (evicted lazily by the lookup) or oldest-entry
eviction past the size cap; an explicit `reset()`, however, clears the whole
store — identifier table and all sessions' file offsets alike. -/
theorem sessionSwitch_frame_reset_clears (store : StoreState) (s s2 p : Str)
    (st : MonState) (hs : s ≠ []) :
    (clearSessionFiles store s).processedUuids = store.processedUuids ∧
    getFilePosition (clearSessionFiles store s) s p = none ∧
    (¬ (s ++ [':']) <+: makeFileKey s2 p →
      getFilePosition (clearSessionFiles store s) s2 p = getFilePosition store s2 p) ∧
    ((monReset st).store.processedUuids = [] ∧ (monReset st).store.filePositions = []) ∧
    (∀ u now ts, jsGet store.processedUuids u = some ts → 0 < ts → uuidTtl < now - ts →
      (hasUuid store u now).1 = false ∧
      jsGet (hasUuid store u now).2.processedUuids u = none) := by
  refine ⟨?_, ?_, ?_, ⟨rfl, rfl⟩, ?_⟩
  · unfold clearSessionFiles
    by_cases h : s = [] <;> simp [h]
  · exact (offset_monotone_and_purged_on_switch 0 [] store s p hs).2
  · intro hnp
    unfold clearSessionFiles
    rw [if_neg hs]
    unfold getFilePosition
    show jsGet (List.filter _ store.filePositions) (makeFileKey s2 p) = jsGet store.filePositions _
    refine jsGet_filter_key store.filePositions _ (makeFileKey s2 p) (fun v => ?_)
    have : (s ++ [':']).isPrefixOf (makeFileKey s2 p) = false := by
      cases hp : (s ++ [':']).isPrefixOf (makeFileKey s2 p) with
      | true => exact absurd (List.isPrefixOf_iff_prefix.mp hp) hnp
      | false => rfl
    simp [this]
  · intro u now ts hget ht0 hgt
    exact hasUuid_expired store u ts now hget ht0 hgt

/-- Witness for `sessionSwitch_frame_reset_clears` on `exStoreTwoSessions`:
purging session `"A"` keeps the identifier table and session `"B"`'s entry,
removes session `"A"`'s entry; reset clears both tables; the identifier
expires at `now = 3600006`. -/
theorem sessionSwitch_frame_reset_clears_witness :
    ((clearSessionFiles exStoreTwoSessions "A".toList).processedUuids =
       exStoreTwoSessions.processedUuids ∧
     getFilePosition (clearSessionFiles exStoreTwoSessions "A".toList) "A".toList "p".toList
       = none ∧
     (¬ ("A".toList ++ [':']) <+: makeFileKey "B".toList "q".toList →
       getFilePosition (clearSessionFiles exStoreTwoSessions "A".toList) "B".toList "q".toList =
         getFilePosition exStoreTwoSessions "B".toList "q".toList) ∧
     ((monReset exMonA).store.processedUuids = [] ∧
      (monReset exMonA).store.filePositions = []) ∧
     (∀ u now ts, jsGet exStoreTwoSessions.processedUuids u = some ts → 0 < ts →
        uuidTtl < now - ts →
        (hasUuid exStoreTwoSessions u now).1 = false ∧
        jsGet (hasUuid exStoreTwoSessions u now).2.processedUuids u = none)) ∧
    ¬ ("A".toList ++ [':']) <+: makeFileKey "B".toList "q".toList ∧
    jsGet exStoreTwoSessions.processedUuids "u".toList = some 5 ∧ uuidTtl < 3600006 - 5 :=
  ⟨sessionSwitch_frame_reset_clears exStoreTwoSessions "A".toList "B".toList "q".toList
      exMonA (by decide),
    by decide, by decide, by decide⟩

/-! ## C1: delivery failure and at-most-once marking -/

theorem hasUuid_false_get_none (st : StoreState) (u : Str) (now : Nat)
    (h : (hasUuid st u now).1 = false) (h0 : jsGet st.processedUuids u ≠ some 0) :
    jsGet (hasUuid st u now).2.processedUuids u = none := by
  unfold hasUuid at h ⊢
  cases hget : jsGet st.processedUuids u with
  | none => exact hget
  | some ts =>
    rw [hget] at h
    by_cases hts : ts = 0
    · exact absurd (hts ▸ hget) h0
    · by_cases hexp : now - ts > uuidTtl
      · show jsGet (if ts = 0 then (false, st)
              else if now - ts > uuidTtl then
                (false, { st with processedUuids := jsDel st.processedUuids u })
              else (true, st)).2.processedUuids u = none
        rw [if_neg hts, if_pos hexp]
        exact jsGet_jsDel_self st.processedUuids u
      · exfalso
        have : (if ts = 0 then (false, st)
                else if now - ts > uuidTtl then
                  (false, { st with processedUuids := jsDel st.processedUuids u })
                else (true, st)).1 = false := h
        rw [if_neg hts, if_neg hexp] at this
        simp at this

theorem markMessageProcessed_mem_get (mem : List (Str × Nat)) (store : StoreState)
    (u : Str) (now : Nat) :
    jsGet (markMessageProcessed mem store u now).1 u = some now := by
  have hkeys : ∀ e ∈ jsDel mem u, ¬ e.1 = u := by
    intro e he hk
    have := (List.mem_filter.mp he).2
    simp [hk] at this
  have hget : jsGet (jsDel mem u ++ [(u, now)]) u = some now :=
    jsGet_append_keysNe _ u now hkeys
  unfold markMessageProcessed
  by_cases hlen : (jsDel mem u ++ [(u, now)]).length > maxProcessedMessages
  · simp only [hlen, if_pos]
    match hm : jsDel mem u with
    | [] =>
      rw [hm] at hlen
      simp [maxProcessedMessages] at hlen
    | e :: rest =>
      show jsGet (jsDelFirst ((e :: rest) ++ [(u, now)])) u = some now
      show jsGet (rest ++ [(u, now)]) u = some now
      exact jsGet_append_keysNe rest u now
        (fun e2 he2 => hkeys e2 (by rw [hm]; exact List.mem_cons_of_mem e he2))
  · simp only [hlen, if_neg, Bool.false_eq_true, not_false_iff]
    exact hget

/-- C1: when the Messenger dispatch of a new assistant record fails, the
failure is only absorbed (nothing propagates: the resulting monitor state is
the one a successful dispatch produces), the record's identifier is still
marked seen in both dedup layers — the in-memory cache and the persistent
store, at the processing time — and any later processing of the same record
against that state delivers nothing and changes nothing. -/
theorem delivery_failure_still_marks_seen
    (mem : List (Str × Nat)) (store : StoreState) (data : LogRecord) (now : Nat)
    (hasAskApi : Bool) (docRead : Str → Option Str) (u : Str)
    (hu : data.uuid = some u)
    (hnew : (isNewAssistantMessage mem store data now).1 = true)
    (h0 : jsGet store.processedUuids u ≠ some 0) :
    (processRecord mem store data now hasAskApi docRead DeliveryOutcome.fail).mem =
      (processRecord mem store data now hasAskApi docRead DeliveryOutcome.ok).mem ∧
    (processRecord mem store data now hasAskApi docRead DeliveryOutcome.fail).store =
      (processRecord mem store data now hasAskApi docRead DeliveryOutcome.ok).store ∧
    (processRecord mem store data now hasAskApi docRead DeliveryOutcome.fail).sent = [] ∧
    jsGet (processRecord mem store data now hasAskApi docRead DeliveryOutcome.fail).mem u
      = some now ∧
    jsGet (processRecord mem store data now hasAskApi docRead
      DeliveryOutcome.fail).store.processedUuids u = some now ∧
    (∀ now2 out2,
      processRecord
        (processRecord mem store data now hasAskApi docRead DeliveryOutcome.fail).mem
        (processRecord mem store data now hasAskApi docRead DeliveryOutcome.fail).store
        data now2 hasAskApi docRead out2 =
      ⟨(processRecord mem store data now hasAskApi docRead DeliveryOutcome.fail).mem,
       (processRecord mem store data now hasAskApi docRead DeliveryOutcome.fail).store,
       []⟩) := by
  have hguard : (hasUuid store u now).1 = false ∧
      (isNewAssistantMessage mem store data now).2 = (hasUuid store u now).2 := by
    unfold isNewAssistantMessage at hnew ⊢
    by_cases hcond : (data.type == "assistant".toList
        && (match data.message with
            | none => false
            | some m => m.role == "assistant".toList)
        && truthy data.uuid
        && !jsHas mem (data.uuid.getD [])) = true
    · rw [if_pos hcond] at hnew ⊢
      rw [hu] at hnew ⊢
      exact ⟨by simpa using hnew, rfl⟩
    · rw [if_neg hcond] at hnew
      simp at hnew
  have hstore2 : jsGet (isNewAssistantMessage mem store data now).2.processedUuids u = none := by
    rw [hguard.2]
    exact hasUuid_false_get_none store u now hguard.1 h0
  have hfail : processRecord mem store data now hasAskApi docRead DeliveryOutcome.fail =
      ⟨(markMessageProcessed mem (isNewAssistantMessage mem store data now).2 u now).1,
       (markMessageProcessed mem (isNewAssistantMessage mem store data now).2 u now).2,
       []⟩ := by
    unfold processRecord
    rw [if_pos hnew, hu]
    by_cases hsend : ((shouldSendMessage data).1.send : Bool)
    · simp only [hsend, Bool.not_true, Bool.false_eq_true, if_neg, not_false_iff]
      rfl
    · have : (shouldSendMessage data).1.send = false := by
        cases h : (shouldSendMessage data).1.send
        · rfl
        · exact absurd h hsend
      simp only [this]
      rfl
  have hok : processRecord mem store data now hasAskApi docRead DeliveryOutcome.ok =
      ⟨(markMessageProcessed mem (isNewAssistantMessage mem store data now).2 u now).1,
       (markMessageProcessed mem (isNewAssistantMessage mem store data now).2 u now).2,
       (processRecord mem store data now hasAskApi docRead DeliveryOutcome.ok).sent⟩ := by
    unfold processRecord
    rw [if_pos hnew, hu]
    by_cases hsend : ((shouldSendMessage data).1.send : Bool)
    · simp only [hsend, Bool.not_true, Bool.false_eq_true, if_neg, not_false_iff]
      rfl
    · have : (shouldSendMessage data).1.send = false := by
        cases h : (shouldSendMessage data).1.send
        · rfl
        · exact absurd h hsend
      simp only [this]
      rfl
  have hmemget : jsGet (processRecord mem store data now hasAskApi docRead
      DeliveryOutcome.fail).mem u = some now := by
    rw [hfail]
    exact markMessageProcessed_mem_get mem (isNewAssistantMessage mem store data now).2 u now
  have hstoreget : jsGet (processRecord mem store data now hasAskApi docRead
      DeliveryOutcome.fail).store.processedUuids u = some now := by
    rw [hfail]
    show jsGet (addUuid (isNewAssistantMessage mem store data now).2 u now).processedUuids u
      = some now
    exact addUuid_get_self _ u now hstore2
  refine ⟨by rw [hfail, hok], by rw [hfail, hok], by rw [hfail], hmemget, hstoreget, ?_⟩
  intro now2 out2
  have hseen : jsHas (processRecord mem store data now hasAskApi docRead
      DeliveryOutcome.fail).mem (data.uuid.getD []) = true := by
    rw [hu]
    show ((jsGet _ u).isSome) = true
    rw [hmemget]
    rfl
  generalize hg1 : (processRecord mem store data now hasAskApi docRead
    DeliveryOutcome.fail).mem = mem2 at hseen ⊢
  generalize hg2 : (processRecord mem store data now hasAskApi docRead
    DeliveryOutcome.fail).store = store2
  unfold processRecord isNewAssistantMessage
  simp [hseen]

/-- Witness for `delivery_failure_still_marks_seen`: the plain-text record
`exTextRecord` (uuid `"u2"`) against an empty monitor state at `t = 5`. -/
theorem delivery_failure_still_marks_seen_witness :
    exTextRecord.uuid = some "u2".toList ∧
    (isNewAssistantMessage [] emptyStore exTextRecord 5).1 = true ∧
    jsGet emptyStore.processedUuids "u2".toList ≠ some 0 ∧
    jsGet (processRecord [] emptyStore exTextRecord 5 false exNoDoc
      DeliveryOutcome.fail).mem "u2".toList = some 5 ∧
    jsGet (processRecord [] emptyStore exTextRecord 5 false exNoDoc
      DeliveryOutcome.fail).store.processedUuids "u2".toList = some 5 :=
  ⟨by decide, by decide, by decide,
    (delivery_failure_still_marks_seen [] emptyStore exTextRecord 5 false exNoDoc
      "u2".toList (by decide) (by decide) (by decide)).2.2.2.1,
    (delivery_failure_still_marks_seen [] emptyStore exTextRecord 5 false exNoDoc
      "u2".toList (by decide) (by decide) (by decide)).2.2.2.2.1⟩

/-! ## C8: malformed AskUserQuestion input -/

/-- C8 counterexample: a record whose `AskUserQuestion` invocation carries a
question entry with no `options` list is **not** suppressed: `question.options
|| []` substitutes an empty list, the parse succeeds without a warning, and
the classification is an interactive send. -/
theorem askUserQuestion_missing_options_cex :
    (shouldSendMessage exAskNoOptions).1.send = true ∧
    (shouldSendMessage exAskNoOptions).1.interaction ≠ none ∧
    (shouldSendMessage exAskNoOptions).2 = false := by decide

theorem isAskUserQuestion_hasToolUse (data : LogRecord)
    (h : isAskUserQuestion data = true) : hasToolUse data = true := by
  unfold isAskUserQuestion at h
  unfold hasToolUse
  cases hc : contentOf data with
  | none => rw [hc] at h; exact absurd h (by simp)
  | some content =>
    rw [hc] at h
    obtain ⟨c, hcmem, hcp⟩ := List.any_eq_true.mp h
    exact List.any_eq_true.mpr ⟨c, hcmem, by
      have := (Bool.and_eq_true _ _).mp hcp
      exact this.1⟩

/-- C8 amended: an `AskUserQuestion` invocation whose input is missing the
`questions` list (or carries an empty one) is suppressed with a logged
warning — no interactive result, no error; but an input malformed only by a
missing `options` list inside its first question entry is *not* suppressed:
it classifies as an interactive question whose option list is empty
(`question.options || []`), with no warning. -/
theorem askUserQuestion_malformed_classification (data : LogRecord) (c : ContentItem)
    (hAsk : isAskUserQuestion data = true)
    (hfind : findAskToolUse data = some c) :
    (c.input.bind ToolInput.questions = none ∨ c.input.bind ToolInput.questions = some [] →
      shouldSendMessage data =
        ({ send := false, interaction := none, pureText := false }, true)) ∧
    (∀ q qs, c.input.bind ToolInput.questions = some (q :: qs) → q.options = none →
      (shouldSendMessage data).1.send = true ∧
      (shouldSendMessage data).1.interaction =
        some { type := InteractionType.askUserQuestion,
               uuid := data.uuid,
               question := { text := q.question.getD [],
                             header := q.header.getD [],
                             options := [],
                             multiSelect := q.multiSelect.getD false },
               planFilePath := none } ∧
      (shouldSendMessage data).2 = false) := by
  have hTool : hasToolUse data = true := isAskUserQuestion_hasToolUse data hAsk
  have hPure : isPureText data = false := by
    unfold isPureText
    cases hc : contentOf data with
    | none => rfl
    | some content => simp [hTool]
  constructor
  · intro hq
    have hparse : parseAskUserQuestion data = (none, true) := by
      unfold parseAskUserQuestion
      rw [hAsk]
      simp only [Bool.not_true, Bool.false_eq_true, if_neg, not_false_iff]
      rw [hfind]
      simp only [Option.some_bind]
      rcases hq with hq | hq <;> rw [hq]
    unfold shouldSendMessage parseInteraction
    rw [hAsk]
    simp only [if_pos]
    rw [hparse]
    simp [hPure]
  · intro q qs hq hopt
    obtain ⟨qq, qh, qo, qm⟩ := q
    have hqo : qo = none := hopt
    subst hqo
    have hparse : parseAskUserQuestion data =
        (some { type := InteractionType.askUserQuestion,
                uuid := data.uuid,
                question := { text := qq.getD [],
                              header := qh.getD [],
                              options := [],
                              multiSelect := qm.getD false },
                planFilePath := none }, false) := by
      unfold parseAskUserQuestion
      rw [hAsk]
      simp only [Bool.not_true, Bool.false_eq_true, if_neg, not_false_iff]
      rw [hfind]
      simp only [Option.some_bind]
      rw [hq]
      rfl
    unfold shouldSendMessage parseInteraction
    rw [hAsk]
    simp only [if_pos]
    rw [hparse]
    exact ⟨rfl, rfl, rfl⟩

/-- Witness for `askUserQuestion_malformed_classification`: the
missing-questions record is suppressed with a warning; the missing-options
record classifies interactive with empty options and no warning. -/
theorem askUserQuestion_malformed_classification_witness :
    (shouldSendMessage exAskNoQuestions =
      ({ send := false, interaction := none, pureText := false }, true)) ∧
    ((shouldSendMessage exAskNoOptions).1.send = true ∧
     (shouldSendMessage exAskNoOptions).1.interaction =
       some { type := InteractionType.askUserQuestion,
              uuid := exAskNoOptions.uuid,
              question := { text := "Proceed?".toList, header := [],
                            options := [], multiSelect := false },
              planFilePath := none } ∧
     (shouldSendMessage exAskNoOptions).2 = false) :=
  ⟨(askUserQuestion_malformed_classification exAskNoQuestions exAskNoQuestionsItem
      (by decide) (by decide)).1 (Or.inl (by decide)),
   (askUserQuestion_malformed_classification exAskNoOptions exAskNoOptionsItem
      (by decide) (by decide)).2 exEntryNoOptions [] (by decide) (by decide)⟩

/-- Witness for `offset_monotone_and_purged_on_switch`: offset 1 in a
3-byte file, and session `"A"` purged from `exStoreTwoSessions`. -/
theorem offset_monotone_and_purged_on_switch_witness :
    1 ≤ processFilePosition 1 "ab\n".toList ∧
    getFilePosition (clearSessionFiles exStoreTwoSessions "A".toList) "A".toList "p".toList
      = none :=
  offset_monotone_and_purged_on_switch 1 "ab\n".toList exStoreTwoSessions
    "A".toList "p".toList (by decide)

/-! ## C6: chunk bound of the delivery split -/

theorem chunksOfFuel_len (n : Nat) (hn : 0 < n) :
    ∀ (fuel : Nat) (l : Str), l.length ≤ fuel →
      ∀ c ∈ chunksOfFuel n fuel l, c.length ≤ n := by
  intro fuel
  induction fuel with
  | zero =>
    intro l hl c hc
    have : l = [] := List.length_eq_zero.mp (Nat.le_zero.mp hl)
    subst this
    simp [chunksOfFuel] at hc
  | succ fuel ih =>
    intro l hl c hc
    match l with
    | [] => simp [chunksOfFuel] at hc
    | x :: rest =>
      have hred : chunksOfFuel n (fuel + 1) (x :: rest) =
          (x :: rest).take n :: chunksOfFuel n fuel ((x :: rest).drop n) := rfl
      rw [hred] at hc
      rcases List.mem_cons.mp hc with hc | hc
      · subst hc
        rw [List.length_take]
        exact min_le_left n _
      · refine ih ((x :: rest).drop n) ?_ c hc
        rw [List.length_drop]
        omega

theorem chunksOf_len (n : Nat) (l : Str) (hn : 0 < n) :
    ∀ c ∈ chunksOf n l, c.length ≤ n := by
  unfold chunksOf
  rw [if_neg (Nat.pos_iff_ne_zero.mp hn)]
  exact chunksOfFuel_len n hn l.length l (le_refl _)

theorem splitLinesLoop_bound (maxLength : Nat) (hm : 0 < maxLength) :
    ∀ (lines : List Str) (lineChunk : Str), lineChunk.length ≤ maxLength →
      (∀ c ∈ (splitLinesLoop maxLength lines lineChunk).1, c.length ≤ maxLength) ∧
      (splitLinesLoop maxLength lines lineChunk).2.length ≤ maxLength := by
  intro lines
  induction lines with
  | nil =>
    intro lineChunk hlc
    exact ⟨by intro c hc; simp [splitLinesLoop] at hc, hlc⟩
  | cons line rest ih =>
    intro lineChunk hlc
    rw [splitLinesLoop]
    by_cases ht :
        (lineChunk ++ (if lineChunk = [] then [] else ['\n']) ++ line).length ≤ maxLength
    · simp only [ht, if_pos]
      exact ih _ ht
    · simp only [ht, if_neg, Bool.false_eq_true, not_false_iff]
      by_cases hl : line.length > maxLength
      · simp only [hl, if_pos]
        obtain ⟨ih1, ih2⟩ := ih [] (Nat.zero_le _)
        refine ⟨?_, ih2⟩
        intro c hc
        rcases List.mem_append.mp hc with hc | hc
        · rcases List.mem_append.mp hc with hc | hc
          · by_cases hlc0 : lineChunk = []
            · simp [hlc0] at hc
            · simp only [hlc0, if_neg, not_false_iff] at hc
              rw [List.mem_singleton.mp hc]
              exact hlc
          · exact chunksOf_len maxLength line hm c hc
        · exact ih1 c hc
      · simp only [hl, if_neg, not_false_iff]
        have hline : line.length ≤ maxLength := Nat.not_lt.mp hl
        obtain ⟨ih1, ih2⟩ := ih line hline
        refine ⟨?_, ih2⟩
        intro c hc
        rcases List.mem_append.mp hc with hc | hc
        · by_cases hlc0 : lineChunk = []
          · simp [hlc0] at hc
          · simp only [hlc0, if_neg, not_false_iff] at hc
            rw [List.mem_singleton.mp hc]
            exact hlc
        · exact ih1 c hc

theorem splitParasLoop_bound (maxLength : Nat) (hm : 0 < maxLength) :
    ∀ (paras : List Str) (currentChunk : Str), currentChunk.length ≤ maxLength →
      (∀ c ∈ (splitParasLoop maxLength paras currentChunk).1, c.length ≤ maxLength) ∧
      (splitParasLoop maxLength paras currentChunk).2.length ≤ maxLength := by
  intro paras
  induction paras with
  | nil =>
    intro currentChunk hcc
    exact ⟨by intro c hc; simp [splitParasLoop] at hc, hcc⟩
  | cons para rest ih =>
    intro currentChunk hcc
    rw [splitParasLoop]
    by_cases ht :
        (currentChunk ++ (if currentChunk = [] then [] else ['\n', '\n']) ++ para).length
          ≤ maxLength
    · simp only [ht, if_pos]
      exact ih _ ht
    · simp only [ht, if_neg, Bool.false_eq_true, not_false_iff]
      by_cases hp : para.length > maxLength
      · simp only [hp, if_pos]
        obtain ⟨hl1, hl2⟩ := splitLinesLoop_bound maxLength hm (splitNl para) [] (Nat.zero_le _)
        obtain ⟨ih1, ih2⟩ := ih _ hl2
        refine ⟨?_, ih2⟩
        intro c hc
        rcases List.mem_append.mp hc with hc | hc
        · rcases List.mem_append.mp hc with hc | hc
          · by_cases hcc0 : currentChunk = []
            · simp [hcc0] at hc
            · simp only [hcc0, if_neg, not_false_iff] at hc
              rw [List.mem_singleton.mp hc]
              exact hcc
          · exact hl1 c hc
        · exact ih1 c hc
      · simp only [hp, if_neg, not_false_iff]
        have hpara : para.length ≤ maxLength := Nat.not_lt.mp hp
        obtain ⟨ih1, ih2⟩ := ih para hpara
        refine ⟨?_, ih2⟩
        intro c hc
        rcases List.mem_append.mp hc with hc | hc
        · by_cases hcc0 : currentChunk = []
          · simp [hcc0] at hc
          · simp only [hcc0, if_neg, not_false_iff] at hc
            rw [List.mem_singleton.mp hc]
            exact hcc
        · exact ih1 c hc

/-- C6 amended: every chunk `splitMessage` produces has payload length at
most the configured maximum, and a text within the maximum is returned as a
single unmodified chunk; the exact-concatenation round-trip of the original
claim does not hold — the blank-line separators at chunk boundaries are
dropped (see the counterexample). -/
theorem splitMessage_chunk_bound (text : Str) (maxLength : Nat) (hm : 0 < maxLength) :
    (∀ c ∈ splitMessage text maxLength, c.length ≤ maxLength) ∧
    (text.length ≤ maxLength → splitMessage text maxLength = [text]) := by
  unfold splitMessage
  by_cases htext : text.length ≤ maxLength
  · rw [if_pos htext]
    exact ⟨by intro c hc; rw [List.mem_singleton.mp hc]; exact htext, fun _ => rfl⟩
  · rw [if_neg htext]
    refine ⟨?_, fun h => absurd h htext⟩
    obtain ⟨h1, h2⟩ := splitParasLoop_bound maxLength hm (splitParas text) [] (Nat.zero_le _)
    intro c hc
    by_cases hch : (splitParasLoop maxLength (splitParas text) []).1
        ++ (if (splitParasLoop maxLength (splitParas text) []).2 = [] then []
            else [(splitParasLoop maxLength (splitParas text) []).2]) = []
    · simp only [hch, if_pos] at hc
      rw [List.mem_singleton.mp hc, List.length_take]
      exact min_le_left _ _
    · simp only [hch, if_neg, not_false_iff] at hc
      rcases List.mem_append.mp hc with hc | hc
      · exact h1 c hc
      · by_cases hr2 : (splitParasLoop maxLength (splitParas text) []).2 = []
        · simp [hr2] at hc
        · simp only [hr2, if_neg, not_false_iff] at hc
          rw [List.mem_singleton.mp hc]
          exact h2

/-- Witness for `splitMessage_chunk_bound` at `text = "ab"`, `maxLength = 1`
(hard split into `["a", "b"]`). -/
theorem splitMessage_chunk_bound_witness :
    0 < 1 ∧
    (∀ c ∈ splitMessage "ab".toList 1, c.length ≤ 1) ∧
    ("ab".toList.length ≤ 1 → splitMessage "ab".toList 1 = ["ab".toList]) ∧
    splitMessage "ab".toList 1 = ["a".toList, "b".toList] :=
  ⟨by decide,
   (splitMessage_chunk_bound "ab".toList 1 (by decide)).1,
   (splitMessage_chunk_bound "ab".toList 1 (by decide)).2,
   by decide⟩

theorem dropWhile_nl_of_no_nl (m : Str) (hm : '\n' ∉ m) :
    m.dropWhile (fun c => c == '\n') = m := by
  cases m with
  | nil => rfl
  | cons c rest =>
    have hc : (c == '\n') = false :=
      beq_eq_false_iff_ne.mpr (fun h => hm (h ▸ List.mem_cons_self c rest))
    simp [List.dropWhile_cons, hc]

theorem splitParasAux_no_nl :
    ∀ (fuel : Nat) (m cur : Str), '\n' ∉ m → m.length ≤ fuel →
      splitParasAux fuel cur m = [cur ++ m] := by
  intro fuel
  induction fuel with
  | zero =>
    intro m cur hm hl
    have : m = [] := List.length_eq_zero.mp (Nat.le_zero.mp hl)
    subst this
    simp [splitParasAux]
  | succ fuel ih =>
    intro m cur hm hl
    match m with
    | [] => simp [splitParasAux]
    | [c] => simp [splitParasAux]
    | c1 :: c2 :: rest =>
      have hc1 : c1 ≠ '\n' := fun h => hm (h ▸ List.mem_cons_self c1 (c2 :: rest))
      show (if c1 = '\n' ∧ c2 = '\n' then
              cur :: splitParasAux fuel [] (rest.dropWhile (fun c => c == '\n'))
            else splitParasAux fuel (cur ++ [c1]) (c2 :: rest)) = [cur ++ (c1 :: c2 :: rest)]
      rw [if_neg (fun h => hc1 h.1)]
      rw [ih (c2 :: rest) (cur ++ [c1])
            (fun h => hm (List.mem_cons_of_mem c1 h)) (by simpa using Nat.le_of_succ_le_succ hl)]
      simp

theorem splitParasAux_sep :
    ∀ (fuel : Nat) (l cur m : Str), '\n' ∉ l → '\n' ∉ m →
      l.length + m.length + 1 ≤ fuel →
      splitParasAux fuel cur (l ++ '\n' :: '\n' :: m) = [cur ++ l, m] := by
  intro fuel
  induction fuel with
  | zero => intro l cur m _ _ hb; omega
  | succ fuel ih =>
    intro l cur m hl hm hb
    match l with
    | [] =>
      show splitParasAux (fuel + 1) cur ('\n' :: '\n' :: m) = [cur ++ [], m]
      show (if '\n' = '\n' ∧ '\n' = '\n' then
              cur :: splitParasAux fuel [] (m.dropWhile (fun c => c == '\n'))
            else splitParasAux fuel (cur ++ ['\n']) ('\n' :: m)) = [cur ++ [], m]
      rw [if_pos ⟨rfl, rfl⟩, dropWhile_nl_of_no_nl m hm,
          splitParasAux_no_nl fuel m [] hm (by simpa using hb)]
      simp
    | c :: l' =>
      have hc : c ≠ '\n' := fun h => hl (h ▸ List.mem_cons_self c l')
      have hl' : '\n' ∉ l' := fun h => hl (List.mem_cons_of_mem c h)
      match l' with
      | [] =>
        show (if c = '\n' ∧ '\n' = '\n' then
                cur :: splitParasAux fuel [] (m.dropWhile (fun c2 => c2 == '\n'))
              else splitParasAux fuel (cur ++ [c]) ('\n' :: '\n' :: m)) = [cur ++ [c], m]
        rw [if_neg (fun h => hc h.1)]
        have := ih [] (cur ++ [c]) m (by simp) hm (by simp at hb ⊢; omega)
        simpa using this
      | c2 :: l'' =>
        show (if c = '\n' ∧ c2 = '\n' then
                cur :: splitParasAux fuel []
                  ((l'' ++ '\n' :: '\n' :: m).dropWhile (fun c3 => c3 == '\n'))
              else splitParasAux fuel (cur ++ [c]) (c2 :: (l'' ++ '\n' :: '\n' :: m)))
            = [cur ++ (c :: c2 :: l''), m]
        rw [if_neg (fun h => hc h.1)]
        have := ih (c2 :: l'') (cur ++ [c]) m hl' hm (by simp at hb ⊢; omega)
        rw [show c2 :: (l'' ++ '\n' :: '\n' :: m) = (c2 :: l'') ++ '\n' :: '\n' :: m from rfl,
            this]
        simp

/-- C6 counterexample: the delivery split is not a round-trip. The text
`cexChunkText` (15000 `'a'`s, a blank line, `"b"`) exceeds the 12000-char
split threshold, `splitMessage` at the configured maximum 15000 packs it as
`[aaaa…a, "b"]`, and concatenating the chunk payloads (no `[i/total]` marker
is even attached to strip) loses the `"\n\n"` separator: the result has
15001 characters, the original 15003. -/
theorem splitMessage_not_roundtrip_cex :
    SPLIT_THRESHOLD < cexChunkText.length ∧
    splitMessage cexChunkText MAX_SINGLE_MESSAGE =
      [List.replicate 15000 'a', ['b']] ∧
    (splitMessage cexChunkText MAX_SINGLE_MESSAGE).flatten ≠ cexChunkText := by
  have hAnn : '\n' ∉ List.replicate 15000 'a' := by
    intro h
    have h2 := List.eq_of_mem_replicate h
    exact absurd h2 (by decide)
  have hAlen : (List.replicate 15000 'a').length = 15000 := List.length_replicate _ _
  have hAne : List.replicate 15000 'a' ≠ [] := by
    intro h
    rw [h] at hAlen
    exact absurd hAlen (by decide)
  have hlen : cexChunkText.length = 15003 := by
    show (List.replicate 15000 'a' ++ '\n' :: '\n' :: ['b']).length = 15003
    rw [List.length_append, hAlen]
    decide
  have hparas : splitParas cexChunkText = [List.replicate 15000 'a', ['b']] := by
    unfold splitParas
    rw [hlen]
    have hsep := splitParasAux_sep 15003 (List.replicate 15000 'a') [] ['b']
      hAnn (by decide) (by rw [hAlen]; decide)
    rw [List.nil_append] at hsep
    exact hsep
  have hbase : splitParasLoop MAX_SINGLE_MESSAGE [] (['b'] : Str) = ([], ['b']) := rfl
  have hloop2 : splitParasLoop MAX_SINGLE_MESSAGE [['b']] (List.replicate 15000 'a') =
      ([List.replicate 15000 'a'], ['b']) := by
    rw [splitParasLoop]
    simp only []
    rw [if_neg hAne]
    have hL : List.length ((List.replicate 15000 'a' ++ ['\n', '\n']) ++ ['b']) = 15003 := by
      rw [List.length_append, List.length_append, hAlen]
      decide
    rw [if_neg (by rw [hL]; decide :
          ¬ List.length ((List.replicate 15000 'a' ++ ['\n', '\n']) ++ ['b'])
            ≤ MAX_SINGLE_MESSAGE)]
    rw [if_neg (by decide : ¬ ((['b'] : Str).length > MAX_SINGLE_MESSAGE)), hbase,
        if_neg hAne]
    rfl
  have hloop1 : splitParasLoop MAX_SINGLE_MESSAGE [List.replicate 15000 'a', ['b']] [] =
      ([List.replicate 15000 'a'], ['b']) := by
    rw [splitParasLoop]
    simp only []
    have harg : (([] ++ if True then ([] : Str) else ['\n', '\n']) ++ List.replicate 15000 'a')
        = List.replicate 15000 'a' := by
      rw [if_pos trivial, List.nil_append, List.nil_append]
    rw [harg]
    rw [if_pos (by rw [hAlen]; decide :
          List.length (List.replicate 15000 'a') ≤ MAX_SINGLE_MESSAGE)]
    exact hloop2
  have hsplit : splitMessage cexChunkText MAX_SINGLE_MESSAGE =
      [List.replicate 15000 'a', ['b']] := by
    unfold splitMessage
    rw [if_neg (by rw [hlen]; decide)]
    rw [hparas, hloop1]
    simp only []
    rw [if_neg (by decide : ¬ (['b'] : Str) = [])]
    have hch : ([List.replicate 15000 'a'] ++ [['b']] : List Str)
        = [List.replicate 15000 'a', ['b']] := rfl
    rw [hch]
    rw [if_neg (List.cons_ne_nil _ _)]
  refine ⟨by rw [hlen]; decide, hsplit, ?_⟩
  rw [hsplit]
  intro h
  have hlen2 := congrArg List.length h
  rw [hlen] at hlen2
  have hfl : (([List.replicate 15000 'a', ['b']] : List Str).flatten).length = 15001 := by
    show (List.replicate 15000 'a' ++ (['b'] ++ [])).length = 15001
    rw [List.length_append, hAlen]
    decide
  rw [hfl] at hlen2
  exact absurd hlen2 (by decide)

/-! ## C7: reset, waiting mode, and resumption at offset 0 -/

theorem jsGet_map_set_ne {α : Type} (m : List (Str × α)) (k : Str) (v : α) (p : Str)
    (hp : p ≠ k) :
    jsGet (m.map (fun e => if e.1 == k then (k, v) else e)) p = jsGet m p := by
  induction m with
  | nil => rfl
  | cons e rest ih =>
    by_cases he : (e.1 == k) = true
    · have hek : e.1 = k := by simpa using he
      have hkp : ((k, v).1 == p) = false := beq_eq_false_iff_ne.mpr (fun h => hp h.symm)
      have hep : (e.1 == p) = false := by
        rw [hek]
        exact beq_eq_false_iff_ne.mpr (fun h => hp h.symm)
      unfold jsGet at ih ⊢
      simp only [List.map_cons, he, if_pos, List.find?_cons, hkp, hep, cond_false]
      exact ih
    · have he' : (e.1 == k) = false := by
        cases h2 : (e.1 == k)
        · rfl
        · exact absurd h2 he
      unfold jsGet at ih ⊢
      simp only [List.map_cons, he', Bool.false_eq_true, if_neg, not_false_iff,
        List.find?_cons]
      by_cases hep : (e.1 == p) = true
      · simp [hep]
      · have hep' : (e.1 == p) = false := by
          cases h2 : (e.1 == p)
          · rfl
          · exact absurd h2 hep
        simp only [hep', cond_false]
        exact ih

theorem jsGet_jsSet_self {α : Type} (m : List (Str × α)) (k : Str) (v : α) :
    jsGet (jsSet m k v) k = some v := by
  unfold jsSet
  by_cases hf : (m.find? (fun e => e.1 == k)).isSome
  · rw [if_pos hf]
    induction m with
    | nil => simp at hf
    | cons e rest ih =>
      by_cases he : (e.1 == k) = true
      · unfold jsGet
        simp only [List.map_cons, he, if_pos]
        have hself : ((k, v).1 == k) = true := beq_self_eq_true k
        rw [@List.find?_cons_of_pos _ (fun e2 => e2.1 == k) (k, v) _ hself]
        rfl
      · have he' : (e.1 == k) = false := by
          cases h2 : (e.1 == k)
          · rfl
          · exact absurd h2 he
        have hf' : (rest.find? (fun e2 => e2.1 == k)).isSome := by
          rw [@List.find?_cons_of_neg _ (fun e2 => e2.1 == k) e _ (by simp [he'])] at hf
          exact hf
        unfold jsGet at ih ⊢
        simp only [List.map_cons, he', Bool.false_eq_true, if_neg, not_false_iff]
        rw [@List.find?_cons_of_neg _ (fun e2 => e2.1 == k) e _ (by simp [he'])]
        exact ih hf'
  · rw [if_neg hf]
    have hnone : m.find? (fun e => e.1 == k) = none := by
      cases h2 : m.find? (fun e => e.1 == k)
      · rfl
      · rw [h2] at hf; simp at hf
    refine jsGet_append_keysNe m k v (fun e he hk => ?_)
    have := List.find?_eq_none.mp hnone e he
    simp [hk] at this

theorem jsGet_jsSet_other {α : Type} (m : List (Str × α)) (k : Str) (v : α) (p : Str)
    (hp : p ≠ k) : jsGet (jsSet m k v) p = jsGet m p := by
  unfold jsSet
  by_cases hf : (m.find? (fun e => e.1 == k)).isSome
  · rw [if_pos hf]
    exact jsGet_map_set_ne m k v p hp
  · rw [if_neg hf]
    unfold jsGet
    rw [List.find?_append]
    have hone : ([(k, v)].find? (fun e => e.1 == p)) = none := by
      have : ((k, v).1 == p) = false := beq_eq_false_iff_ne.mpr (fun h => hp h.symm)
      simp [List.find?_cons, this]
    rw [hone, Option.or_none]

theorem mem_jsSet_val {α : Type} (m : List (Str × α)) (k : Str) (v : α) (e : Str × α)
    (he : e ∈ jsSet m k v) : e.2 = v ∨ e ∈ m := by
  unfold jsSet at he
  by_cases hf : (m.find? (fun e2 => e2.1 == k)).isSome
  · rw [if_pos hf] at he
    obtain ⟨e0, he0, heq⟩ := List.mem_map.mp he
    by_cases h0 : (e0.1 == k) = true
    · rw [if_pos h0] at heq
      exact Or.inl (by rw [← heq])
    · rw [if_neg h0] at heq
      exact Or.inr (heq ▸ he0)
  · rw [if_neg hf] at he
    rcases List.mem_append.mp he with h | h
    · exact Or.inr h
    · exact Or.inl (by rw [List.mem_singleton.mp h])

theorem seedFold_all_zero :
    ∀ (files : List Str) (acc : List (Str × WatchState)),
      (∀ e ∈ acc, e.2 = (⟨0, 0⟩ : WatchState)) →
      (∀ e ∈ files.foldl
          (fun acc p => if jsHas acc p then acc else jsSet acc p ⟨0, 0⟩) acc,
        e.2 = (⟨0, 0⟩ : WatchState)) ∧
      (∀ p, (p ∈ files ∨ jsHas acc p = true) →
        jsGet (files.foldl
          (fun acc p => if jsHas acc p then acc else jsSet acc p ⟨0, 0⟩) acc) p
          = some ⟨0, 0⟩) := by
  intro files
  induction files with
  | nil =>
    intro acc hinv
    refine ⟨hinv, fun p hp => ?_⟩
    rcases hp with hp | hp
    · simp at hp
    · unfold jsHas at hp
      cases hg : jsGet acc p with
      | none => rw [hg] at hp; simp at hp
      | some w =>
        have hw : w = (⟨0, 0⟩ : WatchState) := hinv (p, w) (jsGet_mem_values acc p w hg)
        show jsGet acc p = some ⟨0, 0⟩
        rw [hg, hw]
  | cons p0 rest ih =>
    intro acc hinv
    simp only [List.foldl_cons]
    by_cases hh : jsHas acc p0 = true
    · rw [if_pos hh]
      obtain ⟨ih1, ih2⟩ := ih acc hinv
      refine ⟨ih1, fun p hp => ?_⟩
      rcases hp with hp | hp
      · rcases List.mem_cons.mp hp with hp | hp
        · exact ih2 p (Or.inr (hp ▸ hh))
        · exact ih2 p (Or.inl hp)
      · exact ih2 p (Or.inr hp)
    · rw [if_neg hh]
      have hinv' : ∀ e ∈ jsSet acc p0 ⟨0, 0⟩, e.2 = (⟨0, 0⟩ : WatchState) := by
        intro e he
        rcases mem_jsSet_val acc p0 ⟨0, 0⟩ e he with h | h
        · exact h
        · exact hinv e h
      obtain ⟨ih1, ih2⟩ := ih (jsSet acc p0 ⟨0, 0⟩) hinv'
      refine ⟨ih1, fun p hp => ?_⟩
      have hhas : ∀ q, q ∈ (p0 :: rest) ∨ jsHas acc q = true →
          q ∈ rest ∨ jsHas (jsSet acc p0 ⟨0, 0⟩) q = true := by
        intro q hq
        rcases hq with hq | hq
        · rcases List.mem_cons.mp hq with hq | hq
          · refine Or.inr ?_
            unfold jsHas
            rw [hq, jsGet_jsSet_self]
            rfl
          · exact Or.inl hq
        · by_cases hqp : q = p0
          · refine Or.inr ?_
            unfold jsHas
            rw [hqp, jsGet_jsSet_self]
            rfl
          · refine Or.inr ?_
            unfold jsHas
            rw [jsGet_jsSet_other acc p0 ⟨0, 0⟩ q hqp]
            exact hq
      exact ih2 p (hhas p hp)

theorem clearSessionFiles_empty (s : Str) :
    clearSessionFiles ⟨[], []⟩ s = (⟨[], []⟩ : StoreState) := by
  unfold clearSessionFiles
  by_cases h : s = [] <;> simp [h]

/-- C7: after `reset()` records the outgoing session id `A`, every cycle
still resolving `A` performs no file processing (the state after one such
cycle is a fixed point, so the skip repeats indefinitely); the first cycle resolving a
different id `B` ends the waiting state, adopts `B`, runs the per-file stage,
and every file of session `B` is seeded at offset `0` (the store was cleared,
so no checkpoint survives to seed from). -/
theorem reset_waiting_until_new_session (st : MonState) (A B : Str) (files : List Str)
    (hA : st.currentSessionId = some A) (hAB : A ≠ B) (hf : files ≠ []) :
    (cycleStep (monReset st) (some A) false files).2 = false ∧
    (let c1 := cycleStep (monReset st) (some A) false files
     let c2 := cycleStep c1.1 (some A) false files
     let c3 := cycleStep c2.1 (some A) false files
     let c4 := cycleStep c3.1 (some B) false files
     c2.2 = false ∧ c3.2 = false ∧
     c2.1 = c1.1 ∧
     c4.2 = true ∧
     c4.1.waitingForNewSession = false ∧
     c4.1.currentSessionId = some B ∧
     (∀ p ∈ files, jsGet c4.1.watchedFiles p = some ⟨0, 0⟩)) := by
  have h0 : monReset st = ⟨none, some A, true, [], [], ⟨[], []⟩⟩ := by
    unfold monReset storeClear
    rw [hA]
  have hc1 : cycleStep ⟨none, some A, true, [], [], ⟨[], []⟩⟩ (some A) false files
      = (⟨some A, some A, true, [], [], ⟨[], []⟩⟩, false) := by
    unfold cycleStep getCurrentSessionId
    simp
  have hc2 : cycleStep ⟨some A, some A, true, [], [], ⟨[], []⟩⟩ (some A) false files
      = (⟨some A, some A, true, [], [], ⟨[], []⟩⟩, false) := by
    unfold cycleStep getCurrentSessionId
    simp
  have hstage : cycleFileStage ⟨some B, none, false, [], [], ⟨[], []⟩⟩ (some B) files =
      ({ currentSessionId := some B, lastProcessedSessionId := none,
         waitingForNewSession := false,
         watchedFiles := (files.foldl
             (fun acc p => if jsHas acc p then acc else jsSet acc p ⟨0, 0⟩) []).filter
           (fun e => files.contains e.1),
         processedMessages := [], store := ⟨[], []⟩ }, true) := by
    unfold cycleFileStage
    simp only []
    rw [if_neg hf]
    rfl
  have hc4 : cycleStep ⟨some A, some A, true, [], [], ⟨[], []⟩⟩ (some B) false files
      = cycleFileStage ⟨some B, none, false, [], [], ⟨[], []⟩⟩ (some B) files := by
    unfold cycleStep getCurrentSessionId
    have hABs : ((A == B) : Bool) = false := beq_eq_false_iff_ne.mpr hAB
    have hBA : ¬ (B = A) := fun h => hAB h.symm
    simp [hABs, hBA, clearSessionFiles_empty]
  have hseed := seedFold_all_zero files [] (by intro e he; simp at he)
  have hwf2 : ∀ p ∈ files,
      jsGet ((files.foldl
          (fun acc p => if jsHas acc p then acc else jsSet acc p (⟨0, 0⟩ : WatchState)) []).filter
        (fun e => files.contains e.1)) p = some (⟨0, 0⟩ : WatchState) := by
    intro p hp
    rw [jsGet_filter_key _ _ p (fun v => List.elem_eq_true_of_mem hp)]
    exact hseed.2 p (Or.inl hp)
  refine ⟨by rw [h0, hc1], ?_⟩
  simp only []
  rw [h0, hc1]
  simp only []
  rw [hc2]
  simp only []
  rw [hc2]
  simp only []
  rw [hc4, hstage]
  exact ⟨by trivial, by trivial, by trivial, by trivial, by trivial, by trivial, hwf2⟩

/-- Witness for `reset_waiting_until_new_session` at `A = "A"`, `B = "B"`,
one file `"f"`, starting from `exMonA`. -/
theorem reset_waiting_until_new_session_witness :
    (cycleStep (monReset exMonA) (some "A".toList) false ["f".toList]).2 = false ∧
    (let c1 := cycleStep (monReset exMonA) (some "A".toList) false ["f".toList]
     let c2 := cycleStep c1.1 (some "A".toList) false ["f".toList]
     let c3 := cycleStep c2.1 (some "A".toList) false ["f".toList]
     let c4 := cycleStep c3.1 (some "B".toList) false ["f".toList]
     c2.2 = false ∧ c3.2 = false ∧
     c2.1 = c1.1 ∧
     c4.2 = true ∧
     c4.1.waitingForNewSession = false ∧
     c4.1.currentSessionId = some "B".toList ∧
     (∀ p ∈ ["f".toList], jsGet c4.1.watchedFiles p = some ⟨0, 0⟩)) :=
  reset_waiting_until_new_session exMonA "A".toList "B".toList ["f".toList]
    (by decide) (by decide) (by decide)

/-! ## C9: terminal-derived plan-mode detection, delivery and hash dedup -/

theorem strIncludes_imp_mem (hay needle : Str) (h : strIncludes hay needle = true)
    (c : Char) (hc : c ∈ needle) : c ∈ hay := by
  unfold strIncludes at h
  obtain ⟨t, ht, hpre⟩ := List.any_eq_true.mp h
  have h1 : needle <+: t := List.isPrefixOf_iff_prefix.mp hpre
  have h2 : t <:+ hay := (List.mem_tails t hay).mp ht
  exact h2.subset (h1.subset hc)

theorem isExitPlanMode_nonBlank (content : Str) (h : isExitPlanMode content = true) :
    nonBlank content = true := by
  unfold isExitPlanMode at h
  have h1 : strIncludes content "written up a plan".toList = true := by
    have := (Bool.and_eq_true _ _).mp h
    exact ((Bool.and_eq_true _ _).mp this.1).1
  have hw : 'w' ∈ content :=
    strIncludes_imp_mem content _ h1 'w' (by decide)
  exact List.any_eq_true.mpr ⟨'w', hw, by decide⟩

/-- C9: whenever the captured terminal output matches the plan-ready marker
phrases plus a numbered-options line (`isExitPlanMode`), `checkPlanMode`
synthesizes the plan-confirmation interaction (with the optionally extracted
plan-document path, whose contents the message builder loads through the
filesystem oracle and truncates at the 5000-character cap) and delivers
exactly one message, recording the option-line content hash and the time;
within the 5-minute cool-down a repeat with the same hash delivers nothing
and leaves the state untouched. The identifier-based dedup state is neither
consulted nor modified: the whole path is a function of the plan state only. -/
theorem planMode_detect_deliver_dedup (ps : PlanState) (content : Str)
    (docRead : Str → Option Str) (now : Nat)
    (hm : isExitPlanMode content = true) :
    ((∀ t, ps.lastNotifiedPlanModeContent = some (hashPlanModeContent content) →
        ps.lastPlanModeNotifyTime = some t → t ≠ 0 → now - t < planModeCooldown →
        checkPlanMode ps content docRead now = ([], ps))) ∧
    ((ps.lastNotifiedPlanModeContent ≠ some (hashPlanModeContent content) ∨
      ps.lastPlanModeNotifyTime = none ∨
      (∀ t, ps.lastPlanModeNotifyTime = some t → planModeCooldown ≤ now - t)) →
      checkPlanMode ps content docRead now =
        ([SentItem.text (buildExitPlanModeMessage (parseExitPlanMode content) docRead)],
         { lastNotifiedPlanModeContent := some (hashPlanModeContent content),
           lastPlanModeNotifyTime := some now })) ∧
    (∀ doc, doc.length ≤ maxPlanLength → truncatedPlan doc = doc) ∧
    (∀ doc, maxPlanLength < doc.length →
      (truncatedPlan doc).take maxPlanLength = doc.take maxPlanLength) := by
  have hnb : nonBlank content = true := isExitPlanMode_nonBlank content hm
  have hnb2 : ¬ ((!nonBlank content) = true) := by rw [hnb]; decide
  refine ⟨?_, ?_, ?_, ?_⟩
  · intro t hhash htime ht0 hcd
    unfold checkPlanMode
    rw [if_neg hnb2, if_pos hm]
    have hsk : (ps.lastNotifiedPlanModeContent == some (hashPlanModeContent content) &&
        (match ps.lastPlanModeNotifyTime with
         | some t => decide (t ≠ 0) && decide (now - t < planModeCooldown)
         | none => false)) = true := by
      rw [hhash, htime]
      simp [ht0, hcd]
    rw [if_pos hsk]
  · intro hcase
    unfold checkPlanMode
    rw [if_neg hnb2, if_pos hm]
    have hsk : (ps.lastNotifiedPlanModeContent == some (hashPlanModeContent content) &&
        (match ps.lastPlanModeNotifyTime with
         | some t => decide (t ≠ 0) && decide (now - t < planModeCooldown)
         | none => false)) = false := by
      rcases hcase with h1 | h2 | h3
      · rw [beq_eq_false_iff_ne.mpr h1]
        rfl
      · rw [h2]
        exact Bool.and_false _
      · cases htime : ps.lastPlanModeNotifyTime with
        | none => exact Bool.and_false _
        | some t =>
          have hd : decide (now - t < planModeCooldown) = false :=
            decide_eq_false (Nat.not_lt.mpr (h3 t htime))
          show (ps.lastNotifiedPlanModeContent == some (hashPlanModeContent content) &&
            (decide (t ≠ 0) && decide (now - t < planModeCooldown))) = false
          rw [hd]
          simp
    rw [if_neg (by rw [hsk]; decide)]
  · intro doc hdoc
    unfold truncatedPlan
    rw [if_neg (Nat.not_lt.mpr hdoc)]
  · intro doc hdoc
    unfold truncatedPlan
    rw [if_pos hdoc]
    have hlen : (doc.take maxPlanLength).length = maxPlanLength := by
      rw [List.length_take]
      exact min_eq_left (Nat.le_of_lt hdoc)
    rw [List.append_assoc, List.append_assoc]
    have hTL := List.take_left (doc.take maxPlanLength)
      ("\n\n... (计划过长，已截断，共 ".toList
        ++ ((toString doc.length).toList ++ " 字符)".toList))
    rw [hlen] at hTL
    exact hTL

/-- Witness for `planMode_detect_deliver_dedup`: `exPlanContent` against a
fresh plan state at `t = 1000` (delivery case), plus the skip case at
`t = 2000` after the hash and time were recorded. -/
theorem planMode_detect_deliver_dedup_witness :
    isExitPlanMode exPlanContent = true ∧
    checkPlanMode ⟨none, none⟩ exPlanContent exNoDoc 1000 =
      ([SentItem.text (buildExitPlanModeMessage (parseExitPlanMode exPlanContent) exNoDoc)],
       { lastNotifiedPlanModeContent := some (hashPlanModeContent exPlanContent),
         lastPlanModeNotifyTime := some 1000 }) ∧
    checkPlanMode ⟨some (hashPlanModeContent exPlanContent), some 1000⟩
      exPlanContent exNoDoc 2000 =
      ([], ⟨some (hashPlanModeContent exPlanContent), some 1000⟩) :=
  ⟨by decide,
   (planMode_detect_deliver_dedup ⟨none, none⟩ exPlanContent exNoDoc 1000
      (by decide)).2.1 (Or.inr (Or.inl rfl)),
   (planMode_detect_deliver_dedup ⟨some (hashPlanModeContent exPlanContent), some 1000⟩
      exPlanContent exNoDoc 2000 (by decide)).1 1000 rfl rfl
      (by decide) (by decide)⟩
